import Mathlib

/-!
# MCP-CodeNexus — verified shallow embedding of the entity/query core

This file embeds, in Lean, the entity/query layer of the MCP-CodeNexus
server (models, TypeORM-backed storage, tools, and the heuristic source
scanner) and proves or refutes the specification claims about it.

Modelling conventions, fixed once for the whole file:

* Text is modelled as `Str := List Char` (JS strings); concrete literals
  are written `("...").toList`.
* `Buffer.from(s).toString('base64')` is modelled by `utf8Encode` followed
  by `base64encode` over byte lists.
* The relational store behind TypeORM is modelled as lists of rows plus
  the two many-to-many association tables (`api_endpoint_function`,
  `function_relation`).  `Repository.save` is an upsert by primary key
  where columns the mapper leaves `undefined` keep their previous value
  (TypeORM skips undefined columns on update and inserts NULL on insert);
  relation properties left `undefined` leave the association table
  untouched.  `Repository.delete` removes the row and, per TypeORM's
  default `onDelete: CASCADE` on junction-table foreign keys, the
  association rows referencing it.  Loading a relation joins the
  association table with the related table, so association rows whose
  other end no longer exists yield nothing.
* `simple-array` columns store their list comma-joined and split it again
  on read (empty string reads back as the empty list), exactly as the
  TypeORM driver does.
* Auto-managed date columns are modelled as the values the mappers assign;
  wall-clock reads (`new Date().toISOString()`) are passed in as an
  explicit `now` argument.
* JavaScript truthiness tests on strings (`if (input.query)`) are
  modelled as emptiness tests; `try/catch` around regex construction is
  modelled with `Except`.
-/

namespace CodeNexus

/-- JS strings, modelled as lists of characters. -/
abbrev Str := List Char

/-! ## Small string helpers shared by the embedding -/
/-- JS whitespace for `String.prototype.trim` (the characters relevant to
source text: space, tab, CR, LF). -/
def isWs (c : Char) : Bool :=
  c = ' ' || c = '\t' || c = '\n' || c = '\r'

/-- `s.trim()`. -/
def trim (s : Str) : Str :=
  (s.dropWhile isWs).reverse.dropWhile isWs |>.reverse

/-- `s.includes(sub)` (substring containment). -/
def strContains (s sub : Str) : Bool :=
  s.tails.any (fun t => sub.isPrefixOf t)

/-- ASCII lower-casing, as used by the case-insensitive query filters. -/
def lowerChar (c : Char) : Char :=
  if 'A' ≤ c ∧ c ≤ 'Z' then Char.ofNat (c.toNat + 32) else c

/-- `s.toLowerCase()` (ASCII fragment). -/
def lower (s : Str) : Str := s.map lowerChar

/-- Split a list at every occurrence of the separator `c`; always returns
at least one (possibly empty) piece.  Models `String.prototype.split`. -/
def splitSep (c : Char) : Str → List Str
  | [] => [[]]
  | x :: xs =>
    if x = c then [] :: splitSep c xs
    else
      match splitSep c xs with
      | [] => [[x]]
      | p :: ps => (x :: p) :: ps

/-- Join pieces with the separator `c`; models `Array.prototype.join`. -/
def joinSep (c : Char) : List Str → Str
  | [] => []
  | [s] => s
  | s :: rest => s ++ c :: joinSep c rest

/-! ## UTF-8 and base64 (`Buffer.from(...).toString('base64')`) -/
/-- UTF-8 encoding of one character (code point) into bytes. -/
def utf8Char (c : Char) : List Nat :=
  let n := c.toNat
  if n < 0x80 then [n]
  else if n < 0x800 then [0xC0 + n / 64, 0x80 + n % 64]
  else if n < 0x10000 then [0xE0 + n / 4096, 0x80 + (n / 64) % 64, 0x80 + n % 64]
  else [0xF0 + n / 262144, 0x80 + (n / 4096) % 64, 0x80 + (n / 64) % 64, 0x80 + n % 64]

/-- UTF-8 encoding of a string into bytes, as `Buffer.from(s)` produces. -/
def utf8Encode (s : Str) : List Nat := s.flatMap utf8Char

/-- The base64 alphabet: 6-bit value to ASCII code. -/
def b64char (x : Nat) : Nat :=
  if x < 26 then 65 + x
  else if x < 52 then 97 + (x - 26)
  else if x < 62 then 48 + (x - 52)
  else if x = 62 then 43
  else 47

/-- Standard base64 with `=` padding, over byte lists, producing the ASCII
codes of the encoded text. -/
def base64encode : List Nat → List Nat
  | [] => []
  | [b1] => [b64char (b1 / 4), b64char (b1 % 4 * 16), 61, 61]
  | [b1, b2] => [b64char (b1 / 4), b64char (b1 % 4 * 16 + b2 / 16),
                 b64char (b2 % 16 * 4), 61]
  | b1 :: b2 :: b3 :: rest =>
    b64char (b1 / 4) :: b64char (b1 % 4 * 16 + b2 / 16) ::
    b64char (b2 % 16 * 4 + b3 / 64) :: b64char (b3 % 64) :: base64encode rest

/-- `.replace(/[+/=]/g, '')`: drop the three non-alphanumeric base64
characters (`+` = 43, `/` = 47, `=` = 61) from the encoded text. -/
def stripB64 : List Nat → List Nat
  | [] => []
  | c :: l => if c = 43 ∨ c = 47 ∨ c = 61 then stripB64 l else c :: stripB64 l

/-- ASCII codes back to characters (all codes produced here are < 128). -/
def codesToStr (l : List Nat) : Str := l.map Char.ofNat

/-! ## Identifier derivation (models/project.ts, models/api-endpoint.ts,
models/function.ts) -/
/-- `generateProjectId(name, path)`:
`` `project_${Buffer.from(`${name}:${path}`).toString('base64').replace(/[+/=]/g, '')}` ``. -/
def generateProjectId (name path : Str) : Str :=
  ("project_").toList ++
    codesToStr (stripB64 (base64encode (utf8Encode (name ++ ':' :: path))))

/-- `generateEndpointId(projectId, method, path)`. -/
def generateEndpointId (projectId method path : Str) : Str :=
  ("endpoint_").toList ++
    codesToStr (stripB64 (base64encode (utf8Encode
      (projectId ++ ':' :: method ++ ':' :: path))))

/-- `generateFunctionId(projectId, name, implementationPath)`. -/
def generateFunctionId (projectId name implementationPath : Str) : Str :=
  ("function_").toList ++
    codesToStr (stripB64 (base64encode (utf8Encode
      (projectId ++ ':' :: name ++ ':' :: implementationPath))))

/-! ## Injectivity analysis of the id derivation

The derivation strips `+`, `/` and `=` from the base64 text.  Padding `=`
only ever occurs at the end, and for inputs whose bytes are below 128 and
avoid the four codes `{62, 63, 126, 127}` (the bytes whose low six bits
are 62 or 63) the characters `+` and `/` never occur, so on that domain
stripping is reversible.  The joining colon, however, makes the scheme
non-injective when a name itself contains `:`. -/
/-- Bytes whose base64 image avoids `+` and `/` entirely. -/
def SafeByte (b : Nat) : Prop := b < 128 ∧ b % 64 < 62

instance (b : Nat) : Decidable (SafeByte b) := by unfold SafeByte; infer_instance

/-- Inverse of the base64 alphabet (only used on alphabet codes). -/
def b64dec (c : Nat) : Nat :=
  if 65 ≤ c ∧ c ≤ 90 then c - 65
  else if 97 ≤ c ∧ c ≤ 122 then c - 97 + 26
  else if 48 ≤ c ∧ c ≤ 57 then c - 48 + 52
  else if c = 43 then 62
  else 63

/-- Decoder for stripped base64 (no padding characters left; a trailing
2- or 3-character group encodes the final partial byte group). -/
def dec64 : List Nat → List Nat
  | [] => []
  | [c1, c2] => [b64dec c1 * 4 + b64dec c2 / 16]
  | [c1, c2, c3] => [b64dec c1 * 4 + b64dec c2 / 16,
                     b64dec c2 % 16 * 16 + b64dec c3 / 4]
  | c1 :: c2 :: c3 :: c4 :: rest =>
    (b64dec c1 * 4 + b64dec c2 / 16) ::
    (b64dec c2 % 16 * 16 + b64dec c3 / 4) ::
    (b64dec c3 % 4 * 64 + b64dec c4) :: dec64 rest
  | [_] => []

/-- Characters safe for the id derivation's stripping step: ASCII below
128 avoiding the four bytes whose low six bits are 62 or 63. -/
def SafeChar (c : Char) : Prop := c.toNat < 128 ∧ c.toNat % 64 < 62

instance (c : Char) : Decidable (SafeChar c) := by unfold SafeChar; infer_instance

/-! ## Data model (models/project.ts, models/api-endpoint.ts,
models/function.ts).  Field `example` of a schema is spelt `example_`
because `example` is a Lean keyword. -/
structure Schema where
  contentType : Str
  definition : Str
  example_ : Option Str
deriving DecidableEq

structure Project where
  id : Str
  name : Str
  path : Str
  description : Str
  createdAt : Str
  updatedAt : Str
  apiEndpoints : List Str
  functions : List Str
deriving DecidableEq

structure ApiEndpoint where
  id : Str
  projectId : Str
  method : Str
  path : Str
  description : Str
  requestSchema : Option Schema
  responseSchema : Option Schema
  implementationPath : Str
  createdAt : Str
  updatedAt : Str
  tags : List Str
  relatedFunctions : List Str
deriving DecidableEq

structure Parameter where
  name : Str
  type : Str
  description : Str
  isOptional : Bool
  defaultValue : Option Str
deriving DecidableEq

structure Function where
  id : Str
  projectId : Str
  name : Str
  description : Str
  parameters : List Parameter
  returnType : Str
  returnDescription : Str
  implementation : Str
  implementationPath : Str
  startLine : Nat
  endLine : Nat
  purpose : Str
  createdAt : Str
  updatedAt : Str
  tags : List Str
  relatedApiEndpoints : List Str
  relatedFunctions : List Str
  usageExamples : List Str
deriving DecidableEq

/-- `createProject` (models/project.ts); `now` stands for
`new Date().toISOString()`. -/
def createProject (name path description now : Str) : Project :=
  { id := generateProjectId name path, name, path, description,
    createdAt := now, updatedAt := now, apiEndpoints := [], functions := [] }

/-- `createApiEndpoint` (models/api-endpoint.ts). -/
def createApiEndpoint (projectId method path description implementationPath : Str)
    (requestSchema responseSchema : Option Schema) (tags : List Str) (now : Str) :
    ApiEndpoint :=
  { id := generateEndpointId projectId method path, projectId, method, path,
    description, requestSchema, responseSchema, implementationPath,
    createdAt := now, updatedAt := now, tags, relatedFunctions := [] }

/-- `createFunction` (models/function.ts). -/
def createFunction (projectId name description : Str) (parameters : List Parameter)
    (returnType returnDescription implementation implementationPath : Str)
    (startLine endLine : Nat) (purpose : Str)
    (tags usageExamples : List Str) (now : Str) : Function :=
  { id := generateFunctionId projectId name implementationPath, projectId, name,
    description, parameters, returnType, returnDescription, implementation,
    implementationPath, startLine, endLine, purpose,
    createdAt := now, updatedAt := now, tags,
    relatedApiEndpoints := [], relatedFunctions := [], usageExamples }

/-! ## The relational store behind `TypeORMStorage`

Rows mirror the entity classes (entities/*.entity.ts): scalar columns
only; `simple-array` columns hold the raw comma-joined text (nullable);
the two `@ManyToMany`/`@JoinTable` relations live in the association
tables `epFun` (`api_endpoint_function`) and `funFun`
(`function_relation`).  A project's `apiEndpoints`/`functions` relation
is the inverse of the child's `@ManyToOne(project)` and is computed from
the child rows' `project_id` column. -/
structure ProjectRow where
  id : Str
  name : Str
  path : Str
  description : Str
  createdAt : Str
  updatedAt : Str
deriving DecidableEq

structure EndpointRow where
  id : Str
  projectId : Str
  method : Str
  path : Str
  description : Str
  requestContentType : Option Str
  requestDefinition : Option Str
  requestExample : Option Str
  responseContentType : Option Str
  responseDefinition : Option Str
  responseExample : Option Str
  implementationPath : Str
  createdAt : Str
  updatedAt : Str
  tags : Option Str
deriving DecidableEq

structure FunctionRow where
  id : Str
  projectId : Str
  name : Str
  description : Str
  parameters : List Parameter
  returnType : Str
  returnDescription : Str
  implementation : Str
  implementationPath : Str
  startLine : Nat
  endLine : Nat
  purpose : Str
  createdAt : Str
  updatedAt : Str
  tags : Option Str
  usageExamples : Option Str
deriving DecidableEq

structure Store where
  projects : List ProjectRow
  endpoints : List EndpointRow
  functions : List FunctionRow
  epFun : List (Str × Str)
  funFun : List (Str × Str)
deriving DecidableEq

/-- Read a `simple-array` column: `value ? value.split(',') : []`. -/
def readArr : Option Str → List Str
  | none => []
  | some s => if s = [] then [] else splitSep ',' s

/-- Write a `simple-array` column: `value.join(',')`. -/
def writeArr (l : List Str) : Option Str := some (joinSep ',' l)

def existsRowF (st : Store) (fid : Str) : Bool :=
  st.functions.any (fun f => decide (f.id = fid))

def existsRowE (st : Store) (eid : Str) : Bool :=
  st.endpoints.any (fun e => decide (e.id = eid))

/-- `mapProjectEntityToModel` with the two inverse relations loaded:
the relation arrays are the child rows carrying this project's id. -/
def projectOfRow (st : Store) (r : ProjectRow) : Project :=
  { id := r.id, name := r.name, path := r.path, description := r.description,
    createdAt := r.createdAt, updatedAt := r.updatedAt,
    apiEndpoints := (st.endpoints.filter (fun e => decide (e.projectId = r.id))).map (·.id),
    functions := (st.functions.filter (fun f => decide (f.projectId = r.id))).map (·.id) }

/-- `mapProjectEntityToModel` when the relations were not loaded
(`projectRepository.find()` in `getAllProjects` passes no `relations`),
so `entity.apiEndpoints`/`entity.functions` are undefined and map to `[]`. -/
def projectOfRowBare (r : ProjectRow) : Project :=
  { id := r.id, name := r.name, path := r.path, description := r.description,
    createdAt := r.createdAt, updatedAt := r.updatedAt,
    apiEndpoints := [], functions := [] }

/-- Reassemble an optional schema from its three columns
(`entity.requestContentType ? {...} : undefined`, JS truthiness). -/
def schemaOfCols (ct defin ex : Option Str) : Option Schema :=
  match ct with
  | none => none
  | some c =>
    if c = [] then none
    else some { contentType := c, definition := defin.getD [], example_ := ex }

/-- `mapApiEndpointEntityToModel` with `relatedFunctions` loaded: the
relation is the association rows for this endpoint joined against the
function table. -/
def endpointOfRow (st : Store) (r : EndpointRow) : ApiEndpoint :=
  { id := r.id, projectId := r.projectId, method := r.method, path := r.path,
    description := r.description,
    requestSchema := schemaOfCols r.requestContentType r.requestDefinition r.requestExample,
    responseSchema := schemaOfCols r.responseContentType r.responseDefinition r.responseExample,
    implementationPath := r.implementationPath,
    createdAt := r.createdAt, updatedAt := r.updatedAt,
    tags := readArr r.tags,
    relatedFunctions :=
      (st.epFun.filter (fun pr => decide (pr.1 = r.id) && existsRowF st pr.2)).map (·.2) }

/-- `mapFunctionEntityToModel` with both relations loaded. -/
def functionOfRow (st : Store) (r : FunctionRow) : Function :=
  { id := r.id, projectId := r.projectId, name := r.name,
    description := r.description, parameters := r.parameters,
    returnType := r.returnType, returnDescription := r.returnDescription,
    implementation := r.implementation, implementationPath := r.implementationPath,
    startLine := r.startLine, endLine := r.endLine, purpose := r.purpose,
    createdAt := r.createdAt, updatedAt := r.updatedAt,
    tags := readArr r.tags,
    relatedApiEndpoints :=
      (st.epFun.filter (fun pr => decide (pr.2 = r.id) && existsRowE st pr.1)).map (·.1),
    relatedFunctions :=
      (st.funFun.filter (fun pr => decide (pr.1 = r.id) && existsRowF st pr.2)).map (·.2),
    usageExamples := readArr r.usageExamples }

/-- `Repository.save` keyed by primary key: replace the matching row
(merging with the old row where the mapper left columns undefined) or
append a fresh row. -/
def upsertBy {α : Type} (getId : α → Str) (tbl : List α) (id : Str)
    (mk : Option α → α) : List α :=
  if tbl.any (fun r => decide (getId r = id)) then
    tbl.map (fun r => if getId r = id then mk (some r) else r)
  else tbl ++ [mk none]

/-! ### TypeORMStorage operations (storage/typeorm-storage.ts) -/
def getAllProjects (st : Store) : List Project :=
  st.projects.map projectOfRowBare

def getProject (st : Store) (id : Str) : Option Project :=
  (st.projects.find? (fun r => decide (r.id = id))).map (projectOfRow st)

def getApiEndpoint (st : Store) (id : Str) : Option ApiEndpoint :=
  (st.endpoints.find? (fun r => decide (r.id = id))).map (endpointOfRow st)

def getApiEndpoints (st : Store) (projectId : Str) : List ApiEndpoint :=
  (st.endpoints.filter (fun r => decide (r.projectId = projectId))).map (endpointOfRow st)

def getFunction (st : Store) (id : Str) : Option Function :=
  (st.functions.find? (fun r => decide (r.id = id))).map (functionOfRow st)

def getFunctions (st : Store) (projectId : Str) : List Function :=
  (st.functions.filter (fun r => decide (r.projectId = projectId))).map (functionOfRow st)

/-- `mapProjectModelToEntity`: only the scalar columns are copied — the
`apiEndpoints`/`functions` arrays of the model are dropped. -/
def projectRowOfModel (p : Project) : ProjectRow :=
  { id := p.id, name := p.name, path := p.path, description := p.description,
    createdAt := p.createdAt, updatedAt := p.updatedAt }

def saveProject (st : Store) (p : Project) : Store :=
  let tbl := upsertBy ProjectRow.id st.projects p.id (fun _ => projectRowOfModel p)
  { st with projects := tbl }

def deleteProject (st : Store) (id : Str) : Store :=
  { st with projects := st.projects.filter (fun r => decide (r.id ≠ id)) }

/-- `mapApiEndpointModelToEntity`: schema columns are set only when the
model carries the schema (otherwise they stay `undefined`, which keeps
the old stored value on update and inserts NULL on insert);
`example || null` maps a missing or empty example to NULL.  The model's
`relatedFunctions` array is **not** copied, so the association table is
never written by a save. -/
def endpointRowOfModel (e : ApiEndpoint) (old : Option EndpointRow) : EndpointRow :=
  { id := e.id, projectId := e.projectId, method := e.method, path := e.path,
    description := e.description,
    requestContentType := match e.requestSchema with
      | some s => some s.contentType
      | none => match old with | some o => o.requestContentType | none => none,
    requestDefinition := match e.requestSchema with
      | some s => some s.definition
      | none => match old with | some o => o.requestDefinition | none => none,
    requestExample := match e.requestSchema with
      | some s => (match s.example_ with
          | some x => if x = [] then none else some x
          | none => none)
      | none => match old with | some o => o.requestExample | none => none,
    responseContentType := match e.responseSchema with
      | some s => some s.contentType
      | none => match old with | some o => o.responseContentType | none => none,
    responseDefinition := match e.responseSchema with
      | some s => some s.definition
      | none => match old with | some o => o.responseDefinition | none => none,
    responseExample := match e.responseSchema with
      | some s => (match s.example_ with
          | some x => if x = [] then none else some x
          | none => none)
      | none => match old with | some o => o.responseExample | none => none,
    implementationPath := e.implementationPath,
    createdAt := e.createdAt, updatedAt := e.updatedAt,
    tags := writeArr e.tags }

/-- `TypeORMStorage.saveApiEndpoint`: save the entity, then append the
endpoint id to the owning project's list when the project exists and
does not already list it. -/
def saveApiEndpoint (st : Store) (e : ApiEndpoint) (now : Str) : Store :=
  let tbl := upsertBy EndpointRow.id st.endpoints e.id (endpointRowOfModel e)
  let st1 := { st with endpoints := tbl }
  match getProject st1 e.projectId with
  | none => st1
  | some proj =>
    if e.id ∈ proj.apiEndpoints then st1
    else saveProject st1
      { proj with apiEndpoints := proj.apiEndpoints ++ [e.id], updatedAt := now }

/-- `TypeORMStorage.deleteApiEndpoint`: update the owning project, then
delete the row (association rows referencing it go with it). -/
def deleteApiEndpoint (st : Store) (id : Str) (now : Str) : Store :=
  let st1 := match getApiEndpoint st id with
    | none => st
    | some ep =>
      match getProject st ep.projectId with
      | none => st
      | some proj => saveProject st
          { proj with
            apiEndpoints := proj.apiEndpoints.filter (fun x => decide (x ≠ id))
            updatedAt := now }
  let eps := st1.endpoints.filter (fun r => decide (r.id ≠ id))
  let ef := st1.epFun.filter (fun pr => decide (pr.1 ≠ id))
  { st1 with endpoints := eps, epFun := ef }

/-- `mapFunctionModelToEntity`: every scalar column is copied; the
`relatedApiEndpoints`/`relatedFunctions` arrays are **not**, so the
association tables are never written by a save. -/
def functionRowOfModel (f : Function) : FunctionRow :=
  { id := f.id, projectId := f.projectId, name := f.name,
    description := f.description, parameters := f.parameters,
    returnType := f.returnType, returnDescription := f.returnDescription,
    implementation := f.implementation, implementationPath := f.implementationPath,
    startLine := f.startLine, endLine := f.endLine, purpose := f.purpose,
    createdAt := f.createdAt, updatedAt := f.updatedAt,
    tags := writeArr f.tags, usageExamples := writeArr f.usageExamples }

/-- `TypeORMStorage.saveFunction`: save the entity, update the owning
project's list, then for each related endpoint append this function's id
to its `relatedFunctions` and re-save it. -/
def saveFunction (st : Store) (f : Function) (now : Str) : Store :=
  let tbl := upsertBy FunctionRow.id st.functions f.id (fun _ => functionRowOfModel f)
  let st1 := { st with functions := tbl }
  let st2 := match getProject st1 f.projectId with
    | none => st1
    | some proj =>
      if f.id ∈ proj.functions then st1
      else saveProject st1
        { proj with functions := proj.functions ++ [f.id], updatedAt := now }
  f.relatedApiEndpoints.foldl (fun acc eid =>
    match getApiEndpoint acc eid with
    | none => acc
    | some ep =>
      if f.id ∈ ep.relatedFunctions then acc
      else saveApiEndpoint acc
        { ep with
          relatedFunctions := ep.relatedFunctions ++ [f.id]
          updatedAt := now } now) st2

/-- `TypeORMStorage.deleteFunction`: update the owning project and each
related endpoint, then delete the row (association rows referencing it
go with it). -/
def deleteFunction (st : Store) (id : Str) (now : Str) : Store :=
  let st1 := match getFunction st id with
    | none => st
    | some f =>
      let sta := match getProject st f.projectId with
        | none => st
        | some proj => saveProject st
            { proj with
              functions := proj.functions.filter (fun x => decide (x ≠ id))
              updatedAt := now }
      f.relatedApiEndpoints.foldl (fun acc eid =>
        match getApiEndpoint acc eid with
        | none => acc
        | some ep => saveApiEndpoint acc
            { ep with
              relatedFunctions := ep.relatedFunctions.filter (fun x => decide (x ≠ id))
              updatedAt := now } now) sta
  let fns := st1.functions.filter (fun r => decide (r.id ≠ id))
  let ef := st1.epFun.filter (fun pr => decide (pr.2 ≠ id))
  let ff := st1.funFun.filter (fun pr => decide (pr.1 ≠ id ∧ pr.2 ≠ id))
  { st1 with functions := fns, epFun := ef, funFun := ff }

/-! ## TrackFunctionTool (tools/track-function.ts) -/
structure TrackFunctionInput where
  projectId : Str
  name : Str
  description : Str
  parameters : List Parameter
  returnType : Str
  returnDescription : Str
  implementation : Str
  implementationPath : Str
  startLine : Nat
  endLine : Nat
  purpose : Str
  tags : Option (List Str)
  relatedApiEndpoints : Option (List Str)
  relatedFunctions : Option (List Str)
  usageExamples : Option (List Str)
deriving DecidableEq

structure TrackFunctionOutput where
  success : Bool
  functionId : Option Str
  error : Option Str
deriving DecidableEq

def tfErr (msg : Str) : TrackFunctionOutput :=
  { success := false, functionId := none, error := some msg }

/-- `TrackFunctionTool.execute`.  Returns the tool output together with
the store after the call. -/
def trackFunctionExecute (st : Store) (input : TrackFunctionInput) (now : Str) :
    TrackFunctionOutput × Store :=
  if input.projectId = [] then (tfErr (("Project ID is required").toList), st)
  else if input.name = [] then (tfErr (("Function name is required").toList), st)
  else if input.implementationPath = [] then
    (tfErr (("Implementation path is required").toList), st)
  else
    match getProject st input.projectId with
    | none => (tfErr ((("Project with ID ").toList) ++ input.projectId
        ++ (" not found").toList), st)
    | some _ =>
      let func := createFunction input.projectId input.name input.description
        input.parameters input.returnType input.returnDescription
        input.implementation input.implementationPath input.startLine
        input.endLine input.purpose (input.tags.getD []) (input.usageExamples.getD []) now
      let func := match input.relatedApiEndpoints with
        | some l => if l ≠ [] then { func with relatedApiEndpoints := l } else func
        | none => func
      let func := match input.relatedFunctions with
        | some l => if l ≠ [] then { func with relatedFunctions := l } else func
        | none => func
      ({ success := true, functionId := some func.id, error := none },
        saveFunction st func now)

/-- `TrackFunctionTool.addUsageExample`. -/
def addUsageExample (st : Store) (functionId example_ now : Str) :
    TrackFunctionOutput × Store :=
  if functionId = [] then (tfErr (("Function ID is required").toList), st)
  else if example_ = [] then (tfErr (("Example is required").toList), st)
  else
    match getFunction st functionId with
    | none => (tfErr ((("Function with ID ").toList) ++ functionId
        ++ (" not found").toList), st)
    | some f =>
      let f' := { f with
        usageExamples := f.usageExamples ++ [example_]
        updatedAt := now }
      ({ success := true, functionId := some functionId, error := none },
        saveFunction st f' now)

/-! ## The foreign keys behind the saves

`ApiEndpointEntity` and `FunctionEntity` both declare
`@ManyToOne(() => ProjectEntity)` with `@JoinColumn` on `project_id`
(entities/api-endpoint.entity.ts), and the schema is created from the
entities by `dataSource.synchronize(true)` (db/migrate.ts), so
`api_endpoints.project_id` and `functions.project_id` carry foreign
keys into `projects.id` that the database enforces.  `saveApiEndpoint`
and `saveFunction` above model the writes of a save the database
accepts; the constraint gate on the entity being saved is modelled
here: when its `projectId` matches no project row, `repository.save`
raises a constraint violation, nothing is written, and the error
propagates out of the storage layer (the tools catch it and answer
`success: false`). -/

def existsProjectRow (st : Store) (pid : Str) : Bool :=
  st.projects.any (fun r => decide (r.id = pid))

def fkViolationMsg : Str :=
  ("SQLITE_CONSTRAINT: FOREIGN KEY constraint failed").toList

def saveApiEndpointE (st : Store) (e : ApiEndpoint) (now : Str) : Except Str Store :=
  if existsProjectRow st e.projectId then .ok (saveApiEndpoint st e now)
  else .error fkViolationMsg

def saveFunctionE (st : Store) (f : Function) (now : Str) : Except Str Store :=
  if existsProjectRow st f.projectId then .ok (saveFunction st f now)
  else .error fkViolationMsg

/-! ## Claim C1 — the bidirectional relationship invariant

`saveFunction` pushes the function's id onto each related endpoint's
`relatedFunctions` and re-saves the endpoint, but
`mapApiEndpointModelToEntity` never copies `relatedFunctions` onto the
entity, so the association table is never written and the invariant is
lost on the next read.  The concrete run below exercises exactly the
scenario of the claim through `track_function`. -/
def c1Project : ProjectRow :=
  { id := ("p1").toList, name := ("proj").toList, path := ("/p").toList,
    description := ("d").toList, createdAt := ("t0").toList, updatedAt := ("t0").toList }

def c1Endpoint : EndpointRow :=
  { id := ("e1").toList, projectId := ("p1").toList, method := ("GET").toList,
    path := ("/users").toList, description := ("d").toList,
    requestContentType := none, requestDefinition := none, requestExample := none,
    responseContentType := none, responseDefinition := none, responseExample := none,
    implementationPath := ("app.ts").toList, createdAt := ("t0").toList,
    updatedAt := ("t0").toList, tags := none }

def c1Store : Store :=
  { projects := [c1Project], endpoints := [c1Endpoint], functions := [],
    epFun := [], funFun := [] }

def c1Input : TrackFunctionInput :=
  { projectId := ("p1").toList, name := ("getUsers").toList,
    description := ("lists users").toList, parameters := [],
    returnType := ("void").toList, returnDescription := ("nothing").toList,
    implementation := ("function getUsers() {}").toList,
    implementationPath := ("app.ts").toList, startLine := 1, endLine := 1,
    purpose := ("serve users").toList, tags := none,
    relatedApiEndpoints := some [("e1").toList], relatedFunctions := none,
    usageExamples := none }

/-! ## Claim C4 — deletion cleanup (corrected)

In the TypeORM schema both `endpoint.relatedFunctions` and
`function.relatedApiEndpoints` are views of the single association table
`api_endpoint_function`, so deleting either side removes the pair for
both.  The claimed asymmetry (endpoint deletion leaving the function
side intact) therefore does not hold. -/
def c4Function : FunctionRow :=
  { id := ("f1").toList, projectId := ("p1").toList, name := ("getUsers").toList,
    description := ("d").toList, parameters := [], returnType := ("void").toList,
    returnDescription := ("r").toList, implementation := ("x").toList,
    implementationPath := ("app.ts").toList, startLine := 1, endLine := 1,
    purpose := ("p").toList, createdAt := ("t0").toList, updatedAt := ("t0").toList,
    tags := none, usageExamples := none }

def c4Store : Store :=
  { projects := [c1Project], endpoints := [c1Endpoint], functions := [c4Function],
    epFun := [((("e1").toList), (("f1").toList))], funFun := [] }

def c8Endpoint : ApiEndpoint :=
  { id := ("eX").toList, projectId := ("ghost").toList, method := ("GET").toList,
    path := ("/x").toList, description := ("d").toList, requestSchema := none,
    responseSchema := none, implementationPath := ("x.ts").toList,
    createdAt := ("t0").toList, updatedAt := ("t0").toList, tags := [],
    relatedFunctions := [] }

def c8Function : Function :=
  { id := ("fX").toList, projectId := ("ghost").toList, name := ("fx").toList,
    description := ("d").toList, parameters := [], returnType := ("void").toList,
    returnDescription := ("r").toList, implementation := ("x").toList,
    implementationPath := ("x.ts").toList, startLine := 1, endLine := 1,
    purpose := ("p").toList, createdAt := ("t0").toList, updatedAt := ("t0").toList,
    tags := [], relatedApiEndpoints := [], relatedFunctions := [],
    usageExamples := [] }

/-! ## Claim C9 — addUsageExample appends exactly one example -/
/-- The state `saveFunction` reaches right after its row upsert. -/
def saveFnRow (st : Store) (g : Function) : Store :=
  { st with functions := upsertBy FunctionRow.id st.functions g.id (fun _ => functionRowOfModel g) }

def c9Store : Store :=
  { projects := [], endpoints := [], functions := [c4Function], epFun := [], funFun := [] }

/-! ## A JavaScript-regular-expression fragment

`new RegExp(p)` / `regex.test(s)` are modelled for the fragment of the
JS syntax the query filters rely on: literal characters, `.`, grouping,
alternation, the postfix quantifiers `* + ?`, a leading `^` and a
trailing `$`.  Patterns outside the fragment (classes, escapes, braces,
mid-pattern anchors, anchors over a top-level alternation) are treated
as unparseable, which only narrows the theorems conditioned on a
successful parse; genuinely malformed patterns such as an unterminated
group also fail to parse, matching the `SyntaxError` the engine throws.
`test` succeeds when any substring (anchored as requested) matches;
matching is by Brzozowski derivatives, which is greediness-independent
and therefore agrees with the backtracking engine on acceptance. -/
inductive RE where
  | emp : RE
  | eps : RE
  | anyc : RE
  | dot : RE
  | ch : Char → RE
  | alt : RE → RE → RE
  | cat : RE → RE → RE
  | star : RE → RE
deriving DecidableEq

/-- JS line terminators, which `.` does not match. -/
def isLineTerm (c : Char) : Bool :=
  c = '\n' || c = '\r' || decide (c.toNat = 0x2028) || decide (c.toNat = 0x2029)

def nullable : RE → Bool
  | .emp => false
  | .eps => true
  | .anyc => false
  | .dot => false
  | .ch _ => false
  | .alt r1 r2 => nullable r1 || nullable r2
  | .cat r1 r2 => nullable r1 && nullable r2
  | .star _ => true

def deriv : RE → Char → RE
  | .emp, _ => .emp
  | .eps, _ => .emp
  | .anyc, _ => .eps
  | .dot, c => if isLineTerm c then .emp else .eps
  | .ch c', c => if c = c' then .eps else .emp
  | .alt r1 r2, c => .alt (deriv r1 c) (deriv r2 c)
  | .cat r1 r2, c =>
    if nullable r1 then .alt (.cat (deriv r1 c) r2) (deriv r2 c)
    else .cat (deriv r1 c) r2
  | .star r, c => .cat (deriv r c) (.star r)

def reMatch : RE → Str → Bool
  | r, [] => nullable r
  | r, c :: cs => reMatch (deriv r c) cs

/-- A compiled pattern: optional start/end anchors around a core. -/
structure JsRegex where
  anchS : Bool
  core : RE
  anchE : Bool
deriving DecidableEq

/-- `regex.test(s)`: pad the unanchored sides with "match anything". -/
def reTest (rx : JsRegex) (s : Str) : Bool :=
  reMatch (.cat (if rx.anchS then .eps else .star .anyc)
    (.cat rx.core (if rx.anchE then .eps else .star .anyc))) s

/-- Characters that are not plain literals in the modelled fragment. -/
def isMeta (c : Char) : Bool :=
  c = '(' || c = ')' || c = '|' || c = '*' || c = '+' || c = '?'
    || c = '[' || c = ']' || c = '{' || c = '}' || c = '\\' || c = '^' || c = '$'

/-- One optional postfix quantifier after an atom. -/
def parseQuant (r : RE) : Str → RE × Str
  | '*' :: rest => (.star r, rest)
  | '+' :: rest => (.cat r (.star r), rest)
  | '?' :: rest => (.alt r .eps, rest)
  | s => (r, s)

mutual

def parseAlt : Nat → Str → Option (RE × Str)
  | 0, _ => none
  | Nat.succ fuel, s =>
    match parseCat fuel s with
    | none => none
    | some (r1, rest) =>
      match rest with
      | '|' :: rest' =>
        match parseAlt fuel rest' with
        | some (r2, rest'') => some (.alt r1 r2, rest'')
        | none => none
      | _ => some (r1, rest)

def parseCat : Nat → Str → Option (RE × Str)
  | 0, _ => none
  | Nat.succ fuel, s =>
    match s with
    | [] => some (.eps, [])
    | c :: _ =>
      if c = ')' ∨ c = '|' then some (.eps, s)
      else
        match parseAtom fuel s with
        | none => none
        | some (r, rest) =>
          match parseQuant r rest with
          | (r1, rest1) =>
            match parseCat fuel rest1 with
            | none => none
            | some (r2, rest2) => some (.cat r1 r2, rest2)

def parseAtom : Nat → Str → Option (RE × Str)
  | 0, _ => none
  | Nat.succ fuel, s =>
    match s with
    | [] => none
    | '(' :: rest =>
      (match parseAlt fuel rest with
      | some (r, ')' :: rest') => some (r, rest')
      | _ => none)
    | '.' :: rest => some (.dot, rest)
    | c :: rest => if isMeta c then none else some (.ch c, rest)

end

/-- Does the pattern contain a `|` outside all groups? -/
def topAlt : Nat → Str → Bool
  | _, [] => false
  | d, c :: rest =>
    if c = '(' then topAlt (d + 1) rest
    else if c = ')' then topAlt (d - 1) rest
    else if c = '|' ∧ d = 0 then true
    else topAlt d rest

/-- `new RegExp(p)` over the modelled fragment: peel a leading `^` and a
trailing `$`, reject any remaining anchor (and anchors over a top-level
alternation, whose JS semantics per-branch is outside the fragment),
then parse; `none` models the thrown `SyntaxError`. -/
def parseRegex (p : Str) : Option JsRegex :=
  let pr1 : Bool × Str := match p with
    | '^' :: rest => (true, rest)
    | _ => (false, p)
  let pr2 : Bool × Str :=
    if pr1.2 ≠ [] ∧ pr1.2.getLast? = some '$'
    then (true, pr1.2.dropLast) else (false, pr1.2)
  if pr2.2.any (fun c => c = '^' || c = '$') then none
  else if (pr1.1 || pr2.1) && topAlt 0 pr2.2 then none
  else
    match parseAlt (3 * pr2.2.length + 3) pr2.2 with
    | some (r, []) => some ⟨pr1.1, r, pr2.1⟩
    | _ => none

/-! ## QueryTool (tools/query.ts) -/
structure QueryInput where
  type : Str
  projectId : Option Str
  query : Option Str
  tags : Option (List Str)
  pathPattern : Option Str
  method : Option Str
  namePattern : Option Str
  implementationPath : Option Str
deriving DecidableEq

inductive QEntity where
  | proj : Project → QEntity
  | ep : ApiEndpoint → QEntity
  | fn : Function → QEntity
deriving DecidableEq

structure QueryOutput where
  success : Bool
  results : Option (List QEntity)
  error : Option Str
deriving DecidableEq

/-- JS string truthiness: the empty string is falsy. -/
def optTruthy : Option Str → Option Str
  | some s => if s = [] then none else some s
  | none => none

def upperChar (c : Char) : Char :=
  if 'a' ≤ c ∧ c ≤ 'z' then Char.ofNat (c.toNat - 32) else c

def upper (s : Str) : Str := s.map upperChar

/-- The message `new RegExp` raises on a malformed pattern, surfaced by
the tool's catch-all. -/
def invalidRegexMsg (p : Str) : Str :=
  ("Invalid regular expression: ").toList ++ p

/-- `QueryTool.filterProjects` (no pattern filter, hence no failure). -/
def filterProjects (projects : List Project) (input : QueryInput) : List Project :=
  projects.filter (fun project =>
    (match optTruthy input.query with
     | some q => strContains (lower project.name) (lower q)
         || strContains (lower project.description) (lower q)
     | none => true)
    && (match optTruthy input.implementationPath with
     | some ip => strContains project.path ip
     | none => true))

/-- One endpoint against the filters, in source order; a malformed
`pathPattern` throws at the first endpoint that reaches it. -/
def epMatches (input : QueryInput) (endpoint : ApiEndpoint) : Except Str Bool :=
  if (match optTruthy input.projectId with
      | some pid => decide (endpoint.projectId ≠ pid)
      | none => false) then .ok false
  else if (match optTruthy input.query with
      | some q => !(strContains (lower endpoint.path) (lower q)
          || strContains (lower endpoint.description) (lower q)
          || strContains (lower endpoint.method) (lower q))
      | none => false) then .ok false
  else if (match input.tags with
      | some ts => decide (0 < ts.length) && !(ts.any (fun t => endpoint.tags.contains t))
      | none => false) then .ok false
  else
    match optTruthy input.pathPattern with
    | some p =>
      match parseRegex p with
      | none => .error (invalidRegexMsg p)
      | some rx =>
        if !(reTest rx endpoint.path) then .ok false
        else epMatchesTail input endpoint
    | none => epMatchesTail input endpoint
where
  epMatchesTail (input : QueryInput) (endpoint : ApiEndpoint) : Except Str Bool :=
    if (match optTruthy input.method with
        | some m => decide (endpoint.method ≠ upper m)
        | none => false) then .ok false
    else if (match optTruthy input.implementationPath with
        | some ip => !(strContains endpoint.implementationPath ip)
        | none => false) then .ok false
    else .ok true

def filterApiEndpointsE (input : QueryInput) : List ApiEndpoint → Except Str (List ApiEndpoint)
  | [] => .ok []
  | e :: rest =>
    match epMatches input e with
    | .error msg => .error msg
    | .ok b =>
      match filterApiEndpointsE input rest with
      | .error msg => .error msg
      | .ok l => .ok (if b then e :: l else l)

/-- One function against the filters, in source order; a malformed
`namePattern` throws at the first function that reaches it. -/
def funcMatches (input : QueryInput) (func : Function) : Except Str Bool :=
  if (match optTruthy input.projectId with
      | some pid => decide (func.projectId ≠ pid)
      | none => false) then .ok false
  else if (match optTruthy input.query with
      | some q => !(strContains (lower func.name) (lower q)
          || strContains (lower func.description) (lower q)
          || strContains (lower func.purpose) (lower q)
          || strContains (lower func.implementation) (lower q))
      | none => false) then .ok false
  else if (match input.tags with
      | some ts => decide (0 < ts.length) && !(ts.any (fun t => func.tags.contains t))
      | none => false) then .ok false
  else
    match optTruthy input.namePattern with
    | some p =>
      match parseRegex p with
      | none => .error (invalidRegexMsg p)
      | some rx =>
        if !(reTest rx func.name) then .ok false
        else funcMatchesTail input func
    | none => funcMatchesTail input func
where
  funcMatchesTail (input : QueryInput) (func : Function) : Except Str Bool :=
    if (match optTruthy input.implementationPath with
        | some ip => !(strContains func.implementationPath ip)
        | none => false) then .ok false
    else .ok true

def filterFunctionsE (input : QueryInput) : List Function → Except Str (List Function)
  | [] => .ok []
  | f :: rest =>
    match funcMatches input f with
    | .error msg => .error msg
    | .ok b =>
      match filterFunctionsE input rest with
      | .error msg => .error msg
      | .ok l => .ok (if b then f :: l else l)

/-- Endpoints scanned by `execute`: one project's, or every project's. -/
def gatherEndpoints (st : Store) (input : QueryInput) : List ApiEndpoint :=
  match optTruthy input.projectId with
  | some pid => getApiEndpoints st pid
  | none => (getAllProjects st).flatMap (fun pr => getApiEndpoints st pr.id)

/-- Functions scanned by `execute`: one project's, or every project's. -/
def gatherFunctions (st : Store) (input : QueryInput) : List Function :=
  match optTruthy input.projectId with
  | some pid => getFunctions st pid
  | none => (getAllProjects st).flatMap (fun pr => getFunctions st pr.id)

def executeGather (st : Store) (input : QueryInput) : Except Str (List QEntity) :=
  let r1 := if input.type = ("project").toList ∨ input.type = ("all").toList
    then (filterProjects (getAllProjects st) input).map QEntity.proj else []
  match (if input.type = ("api-endpoint").toList ∨ input.type = ("all").toList
    then filterApiEndpointsE input (gatherEndpoints st input)
    else .ok []) with
  | .error e => .error e
  | .ok l2 =>
    match (if input.type = ("function").toList ∨ input.type = ("all").toList
      then filterFunctionsE input (gatherFunctions st input)
      else .ok []) with
    | .error e => .error e
    | .ok l3 => .ok (r1 ++ l2.map QEntity.ep ++ l3.map QEntity.fn)

/-- `QueryTool.execute`: validate the type, run the three sections, and
convert a thrown pattern error into `{success: false, error}`. -/
def execute (st : Store) (input : QueryInput) : QueryOutput :=
  if input.type = [] then
    { success := false, results := none, error := some (("Query type is required").toList) }
  else
    match executeGather st input with
    | .ok results => { success := true, results := some results, error := none }
    | .error e => { success := false, results := none, error := some e }

/-- A function query whose only filter is `namePattern := p`. -/
def c5Input (p : Str) : QueryInput :=
  { type := ("function").toList, projectId := none, query := none, tags := none,
    pathPattern := none, method := none, namePattern := some p,
    implementationPath := none }

/-- The claim's malformed pattern: an unterminated group. -/
def c5BadInput : QueryInput := c5Input (("(").toList)

def c5EmptyStore : Store :=
  { projects := [], endpoints := [], functions := [], epFun := [], funFun := [] }

def c5Proj : ProjectRow :=
  { id := ("p5").toList, name := ("proj").toList, path := ("/p").toList,
    description := ("d").toList, createdAt := ("t0").toList, updatedAt := ("t0").toList }

def c5FunA : FunctionRow :=
  { id := ("fa").toList, projectId := ("p5").toList, name := ("getUsers").toList,
    description := ("d").toList, parameters := [], returnType := ("void").toList,
    returnDescription := ("r").toList, implementation := ("x").toList,
    implementationPath := ("app.ts").toList, startLine := 1, endLine := 1,
    purpose := ("p").toList, createdAt := ("t0").toList, updatedAt := ("t0").toList,
    tags := none, usageExamples := none }

def c5FunB : FunctionRow :=
  { c5FunA with id := ("fb").toList, name := ("makeThing").toList }

def c5WitStore : Store :=
  { projects := [c5Proj], endpoints := [], functions := [c5FunA, c5FunB],
    epFun := [], funFun := [] }

/-- The compiled form of `^get` in the modelled fragment. -/
def c5Rx : JsRegex :=
  ⟨true, .cat (.ch 'g') (.cat (.ch 'e') (.cat (.ch 't') .eps)), false⟩

def c10Store : Store :=
  { projects := [], endpoints := [], functions := [], epFun := [], funFun := [] }

def c10Input : QueryInput :=
  { type := ("component").toList, projectId := none, query := none, tags := none,
    pathPattern := none, method := none, namePattern := none,
    implementationPath := none }

/-! ## `extractFunctions` (utils/helpers.ts)

The scanner runs three global regexes over the file content.  Each is
hand-compiled here into a matcher that, applied to a suffix of the
content, returns the captured groups and the unconsumed remainder.
Greedy sub-patterns whose continuation can never want the same
characters (`\s+` before a word, `[a-zA-Z0-9_]+` before `\s*\(`,
`[^)]*` before `\)`, `[^{]*` and `[^=]*` at the end of a group) are
compiled to `takeWhile`/`dropWhile`; the places where the backtracking
engine genuinely explores alternatives — the optional keyword groups,
the two-way parameter alternation of the arrow pattern and its name
capture (whose follower can also consume word characters) — are
compiled to ordered attempts, longest/with-group first, exactly as the
engine prefers them.  The `g`-flag `exec` loop is `scanAll`: find the
first match at or after `lastIndex`, then resume past it. -/
def isWordChar (c : Char) : Bool :=
  decide ('a' ≤ c ∧ c ≤ 'z') || decide ('A' ≤ c ∧ c ≤ 'Z')
    || decide ('0' ≤ c ∧ c ≤ '9') || c == '_'

/-- `(?:kw\s+)?`: consume the keyword and its mandatory whitespace when
present (the follower never starts with whitespace, and `kw` cannot be
a prefix of a match without it, so no backtracking is needed). -/
def optKw (kw : Str) (s : Str) : Str :=
  if kw.isPrefixOf s then
    match s.drop kw.length with
    | c :: rest => if isWs c then rest.dropWhile isWs else s
    | [] => s
  else s

/-- The function pattern
`(?:export\s+)?(?:async\s+)?function\s+([a-zA-Z0-9_]+)\s*\(([^)]*)\)(?:\s*:\s*([^{]*))?`
tried at the head of `s`; returns `((name, params, returnGroup), rest)`. -/
def funcPatAt (s : Str) : Option ((Str × Str × Option Str) × Str) :=
  let s2 := optKw (("async").toList) (optKw (("export").toList) s)
  if (("function").toList).isPrefixOf s2 then
    match s2.drop 8 with
    | c :: rest =>
      if isWs c then
        let s4 := rest.dropWhile isWs
        let name := s4.takeWhile isWordChar
        if name = [] then none
        else
          match (s4.dropWhile isWordChar).dropWhile isWs with
          | '(' :: s6 =>
            let params := s6.takeWhile (fun c => c != ')')
            (match s6.dropWhile (fun c => c != ')') with
             | ')' :: s7 =>
               (match s7.dropWhile isWs with
                | ':' :: s9 =>
                  let s10 := s9.dropWhile isWs
                  some ((name, params, some (s10.takeWhile (fun c => c != '{'))),
                    s10.dropWhile (fun c => c != '{'))
                | _ => some ((name, params, none), s7))
             | _ => none)
          | _ => none
      else none
    | [] => none
  else none

/-- `([a-zA-Z0-9_]+)\s*\(([^)]*)\)(?:\s*:\s*([^{]*))?` — the shared core
of the class-method pattern. -/
def methodCore (s : Str) : Option ((Str × Str × Option Str) × Str) :=
  let name := s.takeWhile isWordChar
  if name = [] then none
  else
    match (s.dropWhile isWordChar).dropWhile isWs with
    | '(' :: s2 =>
      let params := s2.takeWhile (fun c => c != ')')
      (match s2.dropWhile (fun c => c != ')') with
       | ')' :: s3 =>
         (match s3.dropWhile isWs with
          | ':' :: s5 =>
            let s6 := s5.dropWhile isWs
            some ((name, params, some (s6.takeWhile (fun c => c != '{'))),
              s6.dropWhile (fun c => c != '{'))
          | _ => some ((name, params, none), s3))
       | _ => none)
    | _ => none

/-- The class-method pattern
`(?:public|private|protected)?\s*(?:async\s+)?([a-zA-Z0-9_]+)\s*\(([^)]*)\)(?:\s*:\s*([^{]*))?`
tried at the head of `s`; the optional keyword groups fall back to the
keyword-less reading when the remainder fails (the keywords are made of
name characters, so e.g. `public(` matches with name `public`). -/
def classMethodAt (s : Str) : Option ((Str × Str × Option Str) × Str) :=
  let attempt (t : Str) : Option ((Str × Str × Option Str) × Str) :=
    let t1 := t.dropWhile isWs
    let withAsync : Option ((Str × Str × Option Str) × Str) :=
      if (("async").toList).isPrefixOf t1 then
        match t1.drop 5 with
        | c :: rest => if isWs c then methodCore (rest.dropWhile isWs) else none
        | [] => none
      else none
    match withAsync with
    | some r => some r
    | none => methodCore t1
  let afterMod : Option Str :=
    if (("public").toList).isPrefixOf s then some (s.drop 6)
    else if (("private").toList).isPrefixOf s then some (s.drop 7)
    else if (("protected").toList).isPrefixOf s then some (s.drop 9)
    else none
  match afterMod with
  | some t =>
    (match attempt t with
     | some r => some r
     | none => attempt s)
  | none => attempt s

/-- `(?:\s*:\s*([^=]*))?(?:\s*=>\s*)` — the tail of the arrow pattern.
`[^=]*` always stops at the first `=`; stopping earlier only shifts
whitespace into the following `\s*`, reaching the same `=`, so the
greedy capture is the one reported whenever any stop succeeds. -/
def arrowTail (s : Str) : Option (Option Str × Str) :=
  let fin (t : Str) : Option Str :=
    match t.dropWhile isWs with
    | '=' :: '>' :: t2 => some (t2.dropWhile isWs)
    | _ => none
  let withRet : Option (Option Str × Str) :=
    match s.dropWhile isWs with
    | ':' :: t1 =>
      let t2 := t1.dropWhile isWs
      (match fin (t2.dropWhile (fun c => c != '=')) with
       | some rest => some (some (t2.takeWhile (fun c => c != '=')), rest)
       | none => none)
    | _ => none
  match withRet with
  | some r => some r
  | none =>
    match fin s with
    | some rest => some (none, rest)
    | none => none

/-- `\s*(?:=\s*)?(?:\(([^)]*)\)|([a-zA-Z0-9_]+))` + tail: the engine
tries the parenthesised alternative first, then the bare-name one, and
drops the optional `=` when its subtree fails. -/
def arrowAfterName (s : Str) : Option ((Str × Option Str) × Str) :=
  let branchParen (t : Str) : Option ((Str × Option Str) × Str) :=
    match t with
    | '(' :: t1 =>
      (match t1.dropWhile (fun c => c != ')') with
       | ')' :: t2 =>
         (match arrowTail t2 with
          | some (ret, rest) => some ((t1.takeWhile (fun c => c != ')'), ret), rest)
          | none => none)
       | _ => none)
    | _ => none
  let branchName (t : Str) : Option ((Str × Option Str) × Str) :=
    let n2 := t.takeWhile isWordChar
    if n2 = [] then none
    else
      match arrowTail (t.dropWhile isWordChar) with
      | some (ret, rest) => some ((n2, ret), rest)
      | none => none
  let alt (t : Str) : Option ((Str × Option Str) × Str) :=
    match branchParen t with
    | some r => some r
    | none => branchName t
  let s1 := s.dropWhile isWs
  match s1 with
  | '=' :: t =>
    (match alt (t.dropWhile isWs) with
     | some r => some r
     | none => alt s1)
  | _ => alt s1

/-- Greedy name capture with backtracking: the follower of
`([a-zA-Z0-9_]+)` can itself consume word characters (the bare-name
parameter alternative), so shorter prefixes of the word run must be
tried, longest first. -/
def arrowWithName : Nat → Str → Option ((Str × Str × Option Str) × Str)
  | 0, _ => none
  | Nat.succ k, s =>
    (match arrowAfterName (s.drop (Nat.succ k)) with
     | some ((ps, ret), rest) => some ((s.take (Nat.succ k), ps, ret), rest)
     | none => arrowWithName k s)

def arrowCore (s : Str) : Option ((Str × Str × Option Str) × Str) :=
  let s1 := s.dropWhile isWs
  arrowWithName (s1.takeWhile isWordChar).length s1

/-- The arrow pattern
`(?:export\s+)?(?:public|private|protected)?\s*([a-zA-Z0-9_]+)\s*(?:=\s*)?(?:\(([^)]*)\)|([a-zA-Z0-9_]+))(?:\s*:\s*([^=]*))?(?:\s*=>\s*)`
tried at the head of `s`; `params` is `match[2] || match[3] || ''`. -/
def arrowAt (s : Str) : Option ((Str × Str × Option Str) × Str) :=
  let withB (t : Str) : Option ((Str × Str × Option Str) × Str) :=
    let afterMod : Option Str :=
      if (("public").toList).isPrefixOf t then some (t.drop 6)
      else if (("private").toList).isPrefixOf t then some (t.drop 7)
      else if (("protected").toList).isPrefixOf t then some (t.drop 9)
      else none
    match afterMod with
    | some t1 =>
      (match arrowCore t1 with
       | some r => some r
       | none => arrowCore t)
    | none => arrowCore t
  if (("export").toList).isPrefixOf s then
    match s.drop 6 with
    | c :: rest =>
      if isWs c then
        (match withB (rest.dropWhile isWs) with
         | some r => some r
         | none => withB s)
      else withB s
    | [] => withB s
  else withB s

/-- The `while ((match = pat.exec(content)) !== null)` loop of a
`g`-flag regex: find the first match at or after the current index and
resume after it (advancing at least one position). -/
def scanAll {A : Type} (matchAt : Str → Option (A × Str)) : Nat → Nat → Str → List (Nat × A)
  | 0, _, _ => []
  | Nat.succ fuel, idx, s =>
    match matchAt s with
    | some (a, after) =>
      let len := s.length - after.length
      (idx, a) :: scanAll matchAt fuel (idx + max len 1) (s.drop (max len 1))
    | none =>
      match s with
      | [] => []
      | _ :: rest => scanAll matchAt fuel (idx + 1) rest

/-- The shared brace-counting loop that finds a definition's last line:
the first line containing `{` sets the count to one (its other braces
are ignored); later lines add their `{` and subtract their `}` counts,
and the line reaching zero is the 1-based `endLine`.  If no line closes
the braces, `endLine` stays at `startLine`. -/
def braceScan : List Str → Nat → Int → Bool → Nat → Nat
  | [], _, _, _, dflt => dflt
  | line :: rest, i, bc, found, dflt =>
    if found = false then
      if line.contains '{' then braceScan rest (i + 1) 1 true dflt
      else braceScan rest (i + 1) bc false dflt
    else
      let bc2 := bc + (line.count '{' : Int) - (line.count '}' : Int)
      if bc2 = 0 then i + 1
      else braceScan rest (i + 1) bc2 true dflt

/-- The arrow-family variant: before any `{` is seen, a line containing
`=>` ends a single-line arrow body at that line. -/
def arrowBraceScan : List Str → Nat → Int → Bool → Nat → Nat
  | [], _, _, _, dflt => dflt
  | line :: rest, i, bc, found, dflt =>
    if found = false then
      if line.contains '{' then arrowBraceScan rest (i + 1) 1 true dflt
      else if strContains line (("=>").toList) then i + 1
      else arrowBraceScan rest (i + 1) bc false dflt
    else
      let bc2 := bc + (line.count '{' : Int) - (line.count '}' : Int)
      if bc2 = 0 then i + 1
      else arrowBraceScan rest (i + 1) bc2 true dflt

/-- `paramsString.split(',').filter(nonblank).map(parse one)`. -/
def parseParams (paramsString : Str) : List Parameter :=
  ((splitSep ',' paramsString).filter (fun p => !(decide (trim p = [])))).map (fun p =>
    let parts := splitSep ':' (trim p)
    let paramName := trim (parts.headD [])
    let isOpt := decide (paramName.getLast? = some '?')
    let cleanName := if isOpt then paramName.dropLast else paramName
    { name := cleanName,
      type := if 1 < parts.length then trim (parts.getD 1 []) else ("any").toList,
      description := ("Parameter ").toList ++ cleanName,
      isOptional := isOpt, defaultValue := none })

/-- `match[3] ? match[3].trim() : 'void'` (an empty capture is falsy). -/
def retOf : Option Str → Str
  | some s => if s = [] then ("void").toList else trim s
  | none => ("void").toList

/-- `line.replace(/^\/\/\s*|\*\s*/, '')`: strip a leading `//` with its
whitespace, or else the first `*` anywhere with its whitespace. -/
def removeFirstStarWs : Str → Str
  | [] => []
  | '*' :: rest => rest.dropWhile isWs
  | c :: rest => c :: removeFirstStarWs rest

def stripComment (line : Str) : Str :=
  if (("//").toList).isPrefixOf line then (line.drop 2).dropWhile isWs
  else removeFirstStarWs line

/-- `text.replace(/pat/i, '')` for a lowercase literal `pat`: remove the
first case-insensitive occurrence. -/
def removeFirstCI (pat : Str) : Str → Str
  | [] => []
  | c :: rest =>
    if pat.isPrefixOf (lower (c :: rest)) then (c :: rest).drop pat.length
    else c :: removeFirstCI pat rest

/-- The comment walk above a definition: up to 19 lines (indices
`startLine-2` down to `startLine-20`), collecting `@description` /
`@purpose` tags, prepending other comment text to the description while
it is still empty, skipping `/*` lines, stopping at anything else. -/
def commentWalk (lines : List Str) : Nat → Int → Str → Str → Str × Str
  | 0, _, desc, purp => (desc, purp)
  | Nat.succ fuel, i, desc, purp =>
    if i < 0 then (desc, purp)
    else
      let line := trim (lines.getD i.toNat [])
      if (("//").toList).isPrefixOf line ∨ (("*").toList).isPrefixOf line then
        let commentText := stripComment line
        if strContains (lower commentText) (("@description").toList) then
          commentWalk lines fuel (i - 1)
            (trim (removeFirstCI (("@description").toList) commentText)) purp
        else if strContains (lower commentText) (("@purpose").toList) then
          commentWalk lines fuel (i - 1) desc
            (trim (removeFirstCI (("@purpose").toList) commentText))
        else if desc = [] then
          commentWalk lines fuel (i - 1) (commentText ++ '\n' :: desc) purp
        else commentWalk lines fuel (i - 1) desc purp
      else if (("/*").toList).isPrefixOf line then
        commentWalk lines fuel (i - 1) desc purp
      else (desc, purp)

/-- Build one extracted `Function` from a match: compute `startLine`
from the newlines before the match index, `endLine` by brace counting,
the implementation as the joined spanned lines, and the description /
purpose from the comment walk with the family's fallbacks. -/
def extractedOf (filePath projectId : Str) (lines : List Str) (content : Str)
    (dfltDesc : Str) (isArrow : Bool) (now : Str)
    (m : Nat × (Str × Str × Option Str)) : Function :=
  let startLine := ((content.take m.1).count '\n') + 1
  let tailLines := lines.drop (startLine - 1)
  let endLine := if isArrow then arrowBraceScan tailLines (startLine - 1) 0 false startLine
                 else braceScan tailLines (startLine - 1) 0 false startLine
  let implementation := joinSep '\n' (tailLines.take (endLine - (startLine - 1)))
  let name := m.2.1
  let ret := retOf m.2.2.2
  let dp := commentWalk lines 19 ((startLine : Int) - 2) [] []
  let desc := if trim dp.1 = [] then dfltDesc ++ name else trim dp.1
  let purp := if trim dp.2 = []
    then ("Implements functionality for ").toList ++ name else trim dp.2
  createFunction projectId name desc (parseParams m.2.2.1) ret
    (("Returns ").toList ++ ret) implementation filePath startLine endLine purp [] [] now

/-- `extractFunctions(filePath, projectId)` on a file with the given
content: the three families in source order, skipping `constructor` in
the class-method family. -/
def extractFunctions (content filePath projectId now : Str) : List Function :=
  let lines := splitSep '\n' content
  let fam1 := scanAll funcPatAt (content.length + 1) 0 content
  let fam2 := scanAll arrowAt (content.length + 1) 0 content
  let fam3 := (scanAll classMethodAt (content.length + 1) 0 content).filter
    (fun m => !(decide (m.2.1 = ("constructor").toList)))
  fam1.map (extractedOf filePath projectId lines content (("Function ").toList) false now)
    ++ fam2.map (extractedOf filePath projectId lines content (("Function ").toList) true now)
    ++ fam3.map (extractedOf filePath projectId lines content (("Method ").toList) false now)

/-- The three-line file of the claim. -/
def c6Content : Str :=
  ("function add(a: number, b: number): number ").toList ++ '{' :: '\n' ::
    ("  return a + b;").toList ++ '\n' :: '}' :: []

def c6Path : Str := ("src/math.ts").toList

def c6Pid : Str := ("p6").toList

def c6Now : Str := ("2024-01-01T00:00:00.000Z").toList

/-! ## `findFiles` (utils/helpers.ts)

A directory listing (`fs.readdir` with file types) is a finite tree:
files, directories with their own listings, and other entry kinds
(symlinks etc.), which the walker ignores.  `path.join` is modelled for
normalized, separator-free names as `dir ++ "/" ++ name`.
`matchPattern` special-cases the pattern `*`, otherwise compiles the
glob as `^` + (`*`→`.*`, `?`→`.`) + `$` through `new RegExp`; this is
embedded through the regular-expression fragment above, with `none` for
patterns outside the fragment (including those where `new RegExp` would
throw — the source has no catch here, so such a walk never returns). -/
mutual

inductive FsEntry where
  | file : Str → FsEntry
  | dir : Str → FsList → FsEntry
  | other : Str → FsEntry

inductive FsList where
  | nil : FsList
  | cons : FsEntry → FsList → FsList

end

def pathJoin (dir name : Str) : Str := dir ++ '/' :: name

/-- `pattern.replace(/\*/g, '.*').replace(/\?/g, '.')`. -/
def globText : Str → Str
  | [] => []
  | '*' :: rest => '.' :: '*' :: globText rest
  | '?' :: rest => '.' :: globText rest
  | c :: rest => c :: globText rest

def matchPatternE (filename pattern : Str) : Option Bool :=
  if pattern = '*' :: [] then some true
  else
    match parseRegex ('^' :: globText pattern ++ '$' :: []) with
    | some rx => some (reTest rx filename)
    | none => none

/-- The directory names `findFiles` refuses to enter. -/
def isExcluded (c : Str) : Bool :=
  c == ("node_modules").toList || c == (".git").toList || c == (".codenexus").toList

mutual

/-- One `readdir` entry of the `findFiles` loop. -/
def findFilesEntry (dir pattern : Str) : FsEntry → Option (List Str)
  | .file name =>
    (match matchPatternE name pattern with
     | some true => some [pathJoin dir name]
     | some false => some []
     | none => none)
  | .dir name children =>
    if isExcluded name then some []
    else findFilesE (pathJoin dir name) pattern children
  | .other _ => some []

/-- `findFiles(dir, pattern)` over a listing, concatenating per-entry
results in order. -/
def findFilesE (dir pattern : Str) : FsList → Option (List Str)
  | .nil => some []
  | .cons e rest =>
    match findFilesEntry dir pattern e, findFilesE dir pattern rest with
    | some l1, some l2 => some (l1 ++ l2)
    | _, _ => none

end

def c7Root : Str := ("/r").toList

def c7Pat : Str := ("*.ts").toList

/-- A tree whose `node_modules` holds a file the pattern would match. -/
def c7Tree : FsList :=
  .cons (.dir (("src").toList) (.cons (.file (("a.ts").toList)) .nil))
    (.cons (.dir (("node_modules").toList) (.cons (.file (("b.ts").toList)) .nil))
      (.cons (.file (("c.txt").toList)) .nil))

def c7Files : List Str := [("/r/src/a.ts").toList]

theorem splitSep_ne_nil (c : Char) (s : Str) : splitSep c s ≠ [] := by
  induction s with
  | nil => simp [splitSep]
  | cons x xs ih =>
    simp only [splitSep]
    split
    · simp
    · cases h : splitSep c xs with
      | nil => simp
      | cons p ps => simp

/-- Joining the pieces of a split restores the original list. -/
theorem joinSep_splitSep (c : Char) (s : Str) :
    joinSep c (splitSep c s) = s := by
  induction s with
  | nil => simp [splitSep, joinSep]
  | cons x xs ih =>
    simp only [splitSep]
    split
    · rename_i hx
      cases h : splitSep c xs with
      | nil => exact absurd h (splitSep_ne_nil c xs)
      | cons p ps =>
        rw [h] at ih
        simp [joinSep, hx, ← ih]
    · cases h : splitSep c xs with
      | nil => exact absurd h (splitSep_ne_nil c xs)
      | cons p ps =>
        rw [h] at ih
        cases ps with
        | nil => simp [joinSep] at ih ⊢; simp [ih]
        | cons q qs => simp [joinSep] at ih ⊢; simp [ih]

/-- Splitting distributes over an inserted separator. -/
theorem splitSep_append (c : Char) (a b : Str) :
    splitSep c (a ++ c :: b) = splitSep c a ++ splitSep c b := by
  induction a with
  | nil => simp [splitSep]
  | cons x xs ih =>
    simp only [List.cons_append, splitSep]
    split
    · simp [ih]
    · cases h : splitSep c (xs ++ c :: b) with
      | nil => exact absurd h (splitSep_ne_nil c _)
      | cons p ps =>
        rw [ih] at h
        cases h' : splitSep c xs with
        | nil => exact absurd h' (splitSep_ne_nil c xs)
        | cons q qs =>
          rw [h'] at h
          simp at h
          simp [h', h.1, h.2]

/-- A separator-free list splits into a single piece. -/
theorem splitSep_of_not_mem (c : Char) (s : Str) (h : c ∉ s) :
    splitSep c s = [s] := by
  induction s with
  | nil => simp [splitSep]
  | cons x xs ih =>
    simp only [splitSep]
    rw [if_neg (by rintro rfl; exact h (List.mem_cons_self x xs))]
    rw [ih (fun hm => h (List.mem_cons_of_mem x hm))]

/-- Joining a nonempty left part and a nonempty right part inserts one
separator between them. -/
theorem joinSep_append (c : Char) (l1 l2 : List Str) (h1 : l1 ≠ []) (h2 : l2 ≠ []) :
    joinSep c (l1 ++ l2) = joinSep c l1 ++ c :: joinSep c l2 := by
  induction l1 with
  | nil => exact absurd rfl h1
  | cons s rest ih =>
    cases rest with
    | nil =>
      cases l2 with
      | nil => exact absurd rfl h2
      | cons t ts => simp [joinSep]
    | cons s' rest' =>
      have h := ih (by simp)
      simp only [List.cons_append, List.append_eq, joinSep] at h ⊢
      rw [h]
      simp

theorem b64dec_b64char {x : Nat} (h : x < 62) : b64dec (b64char x) = x := by
  have H : ∀ y, y < 62 → b64dec (b64char y) = y := by decide
  exact H x h

theorem keep_b64char {x : Nat} (h : x < 62) :
    ¬(b64char x = 43 ∨ b64char x = 47 ∨ b64char x = 61) := by
  have H : ∀ y, y < 62 → ¬(b64char y = 43 ∨ b64char y = 47 ∨ b64char y = 61) := by decide
  exact H x h

theorem b64char_lt_128 (x : Nat) : b64char x < 128 := by
  unfold b64char; split <;> try omega
  split <;> try omega
  split <;> try omega
  split <;> omega

/-- Decoding the stripped base64 of a safe byte list recovers the bytes:
stripping only ever removes the trailing padding. -/
theorem dec64_stripB64_base64encode :
    ∀ bs : List Nat, (∀ b ∈ bs, SafeByte b) →
      dec64 (stripB64 (base64encode bs)) = bs
  | [], _ => by simp [base64encode, stripB64, dec64]
  | [b1], h => by
    have hb1 : SafeByte b1 := h b1 (by simp)
    obtain ⟨hb1a, _⟩ := hb1
    have k1 := keep_b64char (x := b1 / 4) (by omega)
    have k2 := keep_b64char (x := b1 % 4 * 16) (by omega)
    have d1 := b64dec_b64char (x := b1 / 4) (by omega)
    have d2 := b64dec_b64char (x := b1 % 4 * 16) (by omega)
    have t1 : b1 % 4 * 16 / 16 = b1 % 4 := Nat.mul_div_cancel _ (by norm_num)
    show dec64 (stripB64 _) = _
    rw [show base64encode [b1] = [b64char (b1 / 4), b64char (b1 % 4 * 16), 61, 61] from rfl]
    simp only [stripB64, if_neg k1, if_neg k2,
      if_pos (show (61:Nat) = 43 ∨ (61:Nat) = 47 ∨ (61:Nat) = 61 by omega)]
    simp only [dec64, d1, d2, t1, List.cons.injEq, and_true]
    omega
  | [b1, b2], h => by
    have hb1 : SafeByte b1 := h b1 (by simp)
    have hb2 : SafeByte b2 := h b2 (by simp)
    obtain ⟨hb1a, _⟩ := hb1
    obtain ⟨hb2a, _⟩ := hb2
    have k1 := keep_b64char (x := b1 / 4) (by omega)
    have k2 := keep_b64char (x := b1 % 4 * 16 + b2 / 16) (by omega)
    have k3 := keep_b64char (x := b2 % 16 * 4) (by omega)
    have d1 := b64dec_b64char (x := b1 / 4) (by omega)
    have d2 := b64dec_b64char (x := b1 % 4 * 16 + b2 / 16) (by omega)
    have d3 := b64dec_b64char (x := b2 % 16 * 4) (by omega)
    have t1 : (b1 % 4 * 16 + b2 / 16) / 16 = b1 % 4 := by
      rw [Nat.add_comm, Nat.add_mul_div_right _ _ (by norm_num : (0:ℕ) < 16),
        Nat.div_eq_of_lt (by omega)]
      omega
    have t2 : (b1 % 4 * 16 + b2 / 16) % 16 = b2 / 16 := by
      rw [Nat.add_comm, Nat.add_mul_mod_self_right, Nat.mod_eq_of_lt (by omega)]
    have t3 : b2 % 16 * 4 / 4 = b2 % 16 := Nat.mul_div_cancel _ (by norm_num)
    show dec64 (stripB64 _) = _
    rw [show base64encode [b1, b2] = [b64char (b1 / 4), b64char (b1 % 4 * 16 + b2 / 16),
      b64char (b2 % 16 * 4), 61] from rfl]
    simp only [stripB64, if_neg k1, if_neg k2, if_neg k3,
      if_pos (show (61:Nat) = 43 ∨ (61:Nat) = 47 ∨ (61:Nat) = 61 by omega)]
    simp only [dec64, d1, d2, d3, t1, t2, t3, List.cons.injEq, and_true]
    omega
  | b1 :: b2 :: b3 :: rest, h => by
    have hb1 : SafeByte b1 := h b1 (by simp)
    have hb2 : SafeByte b2 := h b2 (by simp)
    have hb3 : SafeByte b3 := h b3 (by simp)
    obtain ⟨hb1a, _⟩ := hb1
    obtain ⟨hb2a, _⟩ := hb2
    obtain ⟨hb3a, hb3b⟩ := hb3
    have k1 := keep_b64char (x := b1 / 4) (by omega)
    have k2 := keep_b64char (x := b1 % 4 * 16 + b2 / 16) (by omega)
    have k3 := keep_b64char (x := b2 % 16 * 4 + b3 / 64) (by omega)
    have k4 := keep_b64char (x := b3 % 64) (by omega)
    have d1 := b64dec_b64char (x := b1 / 4) (by omega)
    have d2 := b64dec_b64char (x := b1 % 4 * 16 + b2 / 16) (by omega)
    have d3 := b64dec_b64char (x := b2 % 16 * 4 + b3 / 64) (by omega)
    have d4 := b64dec_b64char (x := b3 % 64) (by omega)
    have ih := dec64_stripB64_base64encode rest
      (fun b hb => h b (by simp [hb]))
    have t1 : (b1 % 4 * 16 + b2 / 16) / 16 = b1 % 4 := by
      rw [Nat.add_comm, Nat.add_mul_div_right _ _ (by norm_num : (0:ℕ) < 16),
        Nat.div_eq_of_lt (by omega)]
      omega
    have t2 : (b1 % 4 * 16 + b2 / 16) % 16 = b2 / 16 := by
      rw [Nat.add_comm, Nat.add_mul_mod_self_right, Nat.mod_eq_of_lt (by omega)]
    have t3 : (b2 % 16 * 4 + b3 / 64) / 4 = b2 % 16 := by
      rw [Nat.add_comm, Nat.add_mul_div_right _ _ (by norm_num : (0:ℕ) < 4),
        Nat.div_eq_of_lt (by omega)]
      omega
    have t4 : (b2 % 16 * 4 + b3 / 64) % 4 = b3 / 64 := by
      rw [Nat.add_comm, Nat.add_mul_mod_self_right, Nat.mod_eq_of_lt (by omega)]
    show dec64 (stripB64 (_ :: _ :: _ :: _ :: base64encode rest)) = _
    simp only [stripB64, if_neg k1, if_neg k2, if_neg k3, if_neg k4]
    simp only [dec64, d1, d2, d3, d4, t1, t2, t3, t4, List.cons.injEq]
    refine ⟨by omega, by omega, by omega, ?_⟩
    simpa only [stripB64] using ih

/-- On safe bytes, the stripped base64 encoding is injective. -/
theorem stripB64_base64encode_inj {bs1 bs2 : List Nat}
    (h1 : ∀ b ∈ bs1, SafeByte b) (h2 : ∀ b ∈ bs2, SafeByte b)
    (he : stripB64 (base64encode bs1) = stripB64 (base64encode bs2)) :
    bs1 = bs2 := by
  have e1 := dec64_stripB64_base64encode bs1 h1
  have e2 := dec64_stripB64_base64encode bs2 h2
  rw [← e1, he, e2]

/-! Transport through `Char.ofNat`/`Char.toNat` for ASCII codes. -/
theorem ofNat_toNat_ascii {m : Nat} (h : m < 128) : (Char.ofNat m).toNat = m := by
  have H : ∀ k, k < 128 → (Char.ofNat k).toNat = k := by decide
  exact H m h

theorem base64encode_codes_lt_128 :
    ∀ bs : List Nat, ∀ v ∈ base64encode bs, v < 128
  | [] => by simp [base64encode]
  | [b1] => by
    simp only [base64encode, List.mem_cons, List.not_mem_nil, or_false]
    rintro v (rfl | rfl | rfl | rfl) <;> first | exact b64char_lt_128 _ | omega
  | [b1, b2] => by
    simp only [base64encode, List.mem_cons, List.not_mem_nil, or_false]
    rintro v (rfl | rfl | rfl | rfl) <;> first | exact b64char_lt_128 _ | omega
  | b1 :: b2 :: b3 :: rest => by
    intro v hv
    simp only [base64encode, List.mem_cons] at hv
    rcases hv with rfl | rfl | rfl | rfl | hv
    · exact b64char_lt_128 _
    · exact b64char_lt_128 _
    · exact b64char_lt_128 _
    · exact b64char_lt_128 _
    · exact base64encode_codes_lt_128 rest v hv

theorem codesToStr_inj {l1 l2 : List Nat}
    (h1 : ∀ v ∈ l1, v < 128) (h2 : ∀ v ∈ l2, v < 128)
    (he : codesToStr l1 = codesToStr l2) : l1 = l2 := by
  have back : ∀ l : List Nat, (∀ v ∈ l, v < 128) →
      (codesToStr l).map Char.toNat = l := by
    intro l
    induction l with
    | nil => intro; simp [codesToStr]
    | cons v vs ih =>
      intro hl
      simp only [codesToStr, List.map_cons, List.map_map] at ih ⊢
      rw [ofNat_toNat_ascii (hl v (by simp))]
      have := ih (fun w hw => hl w (by simp [hw]))
      simp only [codesToStr, List.map_map] at this
      rw [this]
  rw [← back l1 h1, he, back l2 h2]

/-- Splitting a once-joined pair at the (first) separator is unambiguous
when the left parts are separator-free. -/
theorem sep_join_inj {α : Type} (sep : α) :
    ∀ (n1 p1 n2 p2 : List α), sep ∉ n1 → sep ∉ n2 →
      n1 ++ sep :: p1 = n2 ++ sep :: p2 → n1 = n2 ∧ p1 = p2
  | [], p1, [], p2, _, _, he => by simpa using he
  | [], p1, x :: n2, p2, _, h2, he => by
    simp only [List.nil_append, List.cons_append, List.cons.injEq] at he
    exact absurd (show sep ∈ x :: n2 by rw [he.1]; exact List.mem_cons_self _ _) h2
  | x :: n1, p1, [], p2, h1, _, he => by
    simp only [List.nil_append, List.cons_append, List.cons.injEq] at he
    exact absurd (show sep ∈ x :: n1 by rw [← he.1]; exact List.mem_cons_self _ _) h1
  | x :: n1, p1, y :: n2, p2, h1, h2, he => by
    simp only [List.cons_append, List.cons.injEq] at he
    obtain ⟨rfl, he⟩ := he
    have := sep_join_inj sep n1 p1 n2 p2
      (fun hm => h1 (List.mem_cons_of_mem _ hm))
      (fun hm => h2 (List.mem_cons_of_mem _ hm)) he
    exact ⟨by rw [this.1], this.2⟩

theorem toNat_inj_char {c d : Char} (h : c.toNat = d.toNat) : c = d := by
  have hc : Char.ofNat c.toNat = c := Char.ofNat_toNat c
  have hd : Char.ofNat d.toNat = d := Char.ofNat_toNat d
  rw [← hc, ← hd, h]

theorem utf8Encode_ascii (s : Str) (h : ∀ c ∈ s, c.toNat < 128) :
    utf8Encode s = s.map Char.toNat := by
  induction s with
  | nil => simp [utf8Encode]
  | cons c cs ih =>
    have hc := h c (by simp)
    simp only [utf8Encode, List.flatMap_cons, List.map_cons]
    rw [show utf8Char c = [c.toNat] from by simp [utf8Char, hc]]
    have := ih (fun d hd => h d (by simp [hd]))
    simp only [utf8Encode] at this
    simp [this]

theorem mem_stripB64 {v : Nat} : ∀ {l : List Nat}, v ∈ stripB64 l → v ∈ l
  | [] , h => by simp [stripB64] at h
  | c :: l, h => by
    simp only [stripB64] at h
    split at h
    · exact List.mem_cons_of_mem c (mem_stripB64 h)
    · rcases List.mem_cons.mp h with rfl | h'
      · exact List.mem_cons_self _ _
      · exact List.mem_cons_of_mem c (mem_stripB64 h')

/-- C3 counterexample: the id deriver is not injective.  The key parts are
joined with `:`, so moving the `:` between name and path yields the same
derived id for two different (name, path) pairs. -/
theorem claim_C3_counterexample :
    generateProjectId (("a:b").toList) (("c").toList)
      = generateProjectId (("a").toList) (("b:c").toList)
    ∧ ¬(("a:b").toList = ("a").toList ∧ ("c").toList = ("b:c").toList) := by
  decide

/-- C3 (amended): `generateProjectId` is a pure function of its inputs
(calling it twice with the same arguments yields the same id — the model
has no clock or randomness), and it is injective on the restricted domain
where the name contains no `:` and every character of name and path is an
ASCII character outside `{'>', '?', '~', DEL}` (so that the stripped
base64 encoding loses nothing).  It is not injective in general (see the
counterexample). -/
theorem claim_C3_amended :
    (∀ name path : Str, generateProjectId name path = generateProjectId name path)
    ∧ (∀ n1 p1 n2 p2 : Str,
        (∀ c ∈ n1, SafeChar c) → (∀ c ∈ p1, SafeChar c) → ':' ∉ n1 →
        (∀ c ∈ n2, SafeChar c) → (∀ c ∈ p2, SafeChar c) → ':' ∉ n2 →
        generateProjectId n1 p1 = generateProjectId n2 p2 →
        n1 = n2 ∧ p1 = p2) := by
  refine ⟨fun _ _ => rfl, ?_⟩
  intro n1 p1 n2 p2 hs1 hs1' hc1 hs2 hs2' hc2 he
  -- peel the fixed "project_" prefix
  unfold generateProjectId at he
  have he2 := List.append_cancel_left he
  -- characters back to base64 codes
  have hlt : ∀ (s : Str), ∀ v ∈ stripB64 (base64encode (utf8Encode s)), v < 128 :=
    fun s v hv => base64encode_codes_lt_128 _ v (mem_stripB64 hv)
  have he3 := codesToStr_inj (hlt (n1 ++ ':' :: p1)) (hlt (n2 ++ ':' :: p2)) he2
  -- stripped base64 back to bytes
  have hsafe : ∀ (n p : Str), (∀ c ∈ n, SafeChar c) → (∀ c ∈ p, SafeChar c) →
      ∀ b ∈ utf8Encode (n ++ ':' :: p), SafeByte b := by
    intro n p hn hp b hb
    have hall : ∀ c ∈ n ++ ':' :: p, SafeChar c := by
      intro c hc
      rcases List.mem_append.mp hc with h | h
      · exact hn c h
      · rcases List.mem_cons.mp h with rfl | h
        · exact ⟨by decide, by decide⟩
        · exact hp c h
    rw [utf8Encode_ascii _ (fun c hc => (hall c hc).1)] at hb
    obtain ⟨c, hc, rfl⟩ := List.mem_map.mp hb
    exact hall c hc
  have he4 := stripB64_base64encode_inj (hsafe n1 p1 hs1 hs1') (hsafe n2 p2 hs2 hs2') he3
  -- bytes are just the character codes here
  have hasc : ∀ (n p : Str), (∀ c ∈ n, SafeChar c) → (∀ c ∈ p, SafeChar c) →
      utf8Encode (n ++ ':' :: p) = n.map Char.toNat ++ 58 :: p.map Char.toNat := by
    intro n p hn hp
    rw [utf8Encode_ascii]
    · simp
    · intro c hc
      rcases List.mem_append.mp hc with h | h
      · exact (hn c h).1
      · rcases List.mem_cons.mp h with rfl | h
        · decide
        · exact (hp c h).1
  rw [hasc n1 p1 hs1 hs1', hasc n2 p2 hs2 hs2'] at he4
  -- split back at the (unique) joining colon
  have hnc : ∀ (n : Str), ':' ∉ n → (58:Nat) ∉ n.map Char.toNat := by
    intro n hn hmem
    obtain ⟨c, hc, hc58⟩ := List.mem_map.mp hmem
    have : c = ':' := toNat_inj_char (by rw [hc58]; decide)
    exact hn (this ▸ hc)
  have he5 := sep_join_inj (58:Nat) _ _ _ _ (hnc n1 hc1) (hnc n2 hc2) he4
  have hinj : Function.Injective Char.toNat := fun a b h => toNat_inj_char h
  constructor
  · exact List.map_injective_iff.mpr hinj he5.1
  · exact List.map_injective_iff.mpr hinj he5.2

/-- Witness for C3 (amended), applying it at concrete safe inputs. -/
theorem claim_C3_witness :
    ("app").toList = ("app").toList ∧ ("/srv/app").toList = ("/srv/app").toList :=
  claim_C3_amended.2 (("app").toList) (("/srv/app").toList)
    (("app").toList) (("/srv/app").toList)
    (by decide) (by decide) (by decide) (by decide) (by decide) (by decide) rfl

/-- C1 fails on the code: `track_function` on a stored project with a
stored endpoint and `relatedApiEndpoints = [e1]` reports success, yet
reading endpoint `e1` afterwards yields an empty `relatedFunctions` —
the pushed id was dropped by `mapApiEndpointModelToEntity`, which never
sets the relation on the entity it builds. -/
theorem claim_C1_code_behavior :
    (trackFunctionExecute c1Store c1Input (("t1").toList)).1.success = true
    ∧ ((getApiEndpoint (trackFunctionExecute c1Store c1Input (("t1").toList)).2
        (("e1").toList)).map ApiEndpoint.relatedFunctions) = some [] := by
  decide

/-! ## Helper lemmas about the store operations -/
theorem saveProject_endpoints (st : Store) (p : Project) :
    (saveProject st p).endpoints = st.endpoints := rfl

theorem saveProject_functions (st : Store) (p : Project) :
    (saveProject st p).functions = st.functions := rfl

theorem saveProject_epFun (st : Store) (p : Project) :
    (saveProject st p).epFun = st.epFun := rfl

theorem saveProject_funFun (st : Store) (p : Project) :
    (saveProject st p).funFun = st.funFun := rfl

theorem saveApiEndpoint_endpoints (st : Store) (e : ApiEndpoint) (now : Str) :
    (saveApiEndpoint st e now).endpoints
      = upsertBy EndpointRow.id st.endpoints e.id (endpointRowOfModel e) := by
  unfold saveApiEndpoint
  dsimp only
  split
  · rfl
  · split <;> rfl

theorem saveApiEndpoint_functions (st : Store) (e : ApiEndpoint) (now : Str) :
    (saveApiEndpoint st e now).functions = st.functions := by
  unfold saveApiEndpoint
  dsimp only
  split
  · rfl
  · split <;> rfl

theorem saveApiEndpoint_epFun (st : Store) (e : ApiEndpoint) (now : Str) :
    (saveApiEndpoint st e now).epFun = st.epFun := by
  unfold saveApiEndpoint
  dsimp only
  split
  · rfl
  · split <;> rfl

theorem saveApiEndpoint_funFun (st : Store) (e : ApiEndpoint) (now : Str) :
    (saveApiEndpoint st e now).funFun = st.funFun := by
  unfold saveApiEndpoint
  dsimp only
  split
  · rfl
  · split <;> rfl

/-- The row an `upsertBy` with a constant row function always places. -/
theorem upsertBy_mem_const {α : Type} (getId : α → Str) (tbl : List α)
    (id : Str) (v : α) (_hid : getId v = id) :
    v ∈ upsertBy getId tbl id (fun _ => v) := by
  unfold upsertBy
  split
  · rename_i h
    obtain ⟨r, hr, hgid⟩ := List.any_eq_true.mp h
    exact List.mem_map.mpr ⟨r, hr, by rw [if_pos (of_decide_eq_true hgid)]⟩
  · simp

/-- `find?` by id after an `upsertBy` with the same id: the new row built
from whatever row `find?` located before. -/
theorem find?_upsertBy {α : Type} (getId : α → Str) (id : Str)
    (mk : Option α → α) (hmk : ∀ old, getId (mk old) = id) :
    ∀ tbl : List α,
      (upsertBy getId tbl id mk).find? (fun r => decide (getId r = id))
        = some (mk (tbl.find? (fun r => decide (getId r = id))))
  | [] => by
    simp [upsertBy, List.find?, hmk]
  | r :: rest => by
    by_cases hr : getId r = id
    · have hany : (r :: rest).any (fun x => decide (getId x = id)) = true :=
        List.any_eq_true.mpr ⟨r, by simp [hr]⟩
      unfold upsertBy
      rw [if_pos hany, List.map_cons, if_pos hr,
        List.find?_cons_of_pos _ (by simp [hmk]),
        List.find?_cons_of_pos _ (by simp [hr])]
    · by_cases hrest : rest.any (fun x => decide (getId x = id)) = true
      · have hany : (r :: rest).any (fun x => decide (getId x = id)) = true := by
          simp [List.any_cons, hrest]
        have ih := find?_upsertBy getId id mk hmk rest
        rw [show upsertBy getId rest id mk
            = rest.map (fun x => if getId x = id then mk (some x) else x) from by
          unfold upsertBy; rw [if_pos hrest]] at ih
        unfold upsertBy
        rw [if_pos hany, List.map_cons, if_neg hr,
          List.find?_cons_of_neg _ (by simp [hr]),
          List.find?_cons_of_neg _ (by simp [hr])]
        exact ih
      · have hrest' : rest.any (fun x => decide (getId x = id)) = false := by
          simpa using hrest
        have hany : (r :: rest).any (fun x => decide (getId x = id)) = false := by
          simp [List.any_cons, hrest', hr]
        have ih := find?_upsertBy getId id mk hmk rest
        rw [show upsertBy getId rest id mk = rest ++ [mk none] from by
          unfold upsertBy; rw [hrest']; simp] at ih
        unfold upsertBy
        rw [hany]
        simp only [Bool.false_eq_true, if_false, List.cons_append]
        rw [List.find?_cons_of_neg _ (by simp [hr]),
          List.find?_cons_of_neg _ (by simp [hr])]
        exact ih

/-- Replacing rows in place does not change the id column. -/
theorem upsertBy_map_getId_of_any {α : Type} (getId : α → Str) (tbl : List α)
    (id : Str) (mk : Option α → α) (hmk : ∀ old, getId (mk old) = id)
    (hany : tbl.any (fun r => decide (getId r = id)) = true) :
    (upsertBy getId tbl id mk).map getId = tbl.map getId := by
  unfold upsertBy
  rw [if_pos hany, List.map_map]
  refine List.map_congr_left ?_
  intro r _
  by_cases hr : getId r = id
  · simp [hr, hmk]
  · simp [hr]

/-- Simple-array round trip: re-joining what was read back is lossless. -/
theorem readArr_writeArr_readArr (o : Option Str) :
    readArr (writeArr (readArr o)) = readArr o := by
  match o with
  | none => simp [readArr, writeArr, joinSep]
  | some s =>
    by_cases hs : s = []
    · subst hs; simp [readArr, writeArr, joinSep]
    · simp only [readArr]
      rw [if_neg hs]
      simp only [writeArr, joinSep_splitSep, readArr]
      rw [if_neg hs]

/-- Appending one comma-free, non-empty element to a read-back
simple-array column and re-joining reads back as the appended list. -/
theorem readArr_writeArr_append (o : Option Str) (ex : Str)
    (hne : ex ≠ []) (hc : ',' ∉ ex) :
    readArr (writeArr (readArr o ++ [ex])) = readArr o ++ [ex] := by
  have hex : splitSep ',' ex = [ex] := splitSep_of_not_mem ',' ex hc
  have hjoin1 : joinSep ',' [ex] = ex := rfl
  match o with
  | none =>
    simp only [readArr, List.nil_append, writeArr, hjoin1]
    rw [if_neg hne, hex]
  | some s =>
    by_cases hs : s = []
    · subst hs
      rw [show readArr (some ([] : Str)) = [] from rfl]
      simp only [List.nil_append, writeArr, hjoin1]
      simp only [readArr]
      rw [if_neg hne, hex]
    · have h1 : readArr (some s) = splitSep ',' s := by
        simp only [readArr]; rw [if_neg hs]
      rw [h1]
      have h2 : writeArr (splitSep ',' s ++ [ex]) = some (s ++ ',' :: ex) := by
        simp only [writeArr]
        rw [joinSep_append ',' _ [ex] (splitSep_ne_nil ',' s) (by simp),
          joinSep_splitSep, hjoin1]
      rw [h2]
      have h3 : readArr (some (s ++ ',' :: ex)) = splitSep ',' s ++ [ex] := by
        simp only [readArr]
        rw [if_neg (by simp : ¬(s ++ ',' :: ex = [])), splitSep_append, hex]
      rw [h3]

/-- C4 counterexample: with endpoint `e1` and function `f1` associated,
deleting the endpoint *does* clear `e1` from the function's
`relatedApiEndpoints` (the shared association row is gone), contradicting
the claim that endpoint deletion leaves the function side untouched. -/
theorem claim_C4_counterexample :
    ((getFunction (deleteApiEndpoint c4Store (("e1").toList) (("t1").toList))
        (("f1").toList)).map Function.relatedApiEndpoints) = some []
    ∧ ((getFunction c4Store (("f1").toList)).map Function.relatedApiEndpoints)
        = some [("e1").toList] := by
  decide

/-- C4 (amended): deleting a function removes its id from the owning
project's `functions` view and from every endpoint's `relatedFunctions`;
deleting an endpoint removes its id from the owning project's
`apiEndpoints` view **and also** from every function's
`relatedApiEndpoints` — the relation is one shared association table, so
the cleanup is symmetric, not asymmetric as claimed. -/
theorem claim_C4_amended (st : Store) (fid eid now : Str) :
    ((∀ pid proj, getProject (deleteFunction st fid now) pid = some proj →
        fid ∉ proj.functions)
      ∧ (∀ eid' ep, getApiEndpoint (deleteFunction st fid now) eid' = some ep →
        fid ∉ ep.relatedFunctions))
    ∧ ((∀ pid proj, getProject (deleteApiEndpoint st eid now) pid = some proj →
        eid ∉ proj.apiEndpoints)
      ∧ (∀ fid' f, getFunction (deleteApiEndpoint st eid now) fid' = some f →
        eid ∉ f.relatedApiEndpoints)) := by
  constructor
  · constructor
    · intro pid proj hp hmem
      obtain ⟨r, hr, rfl⟩ := Option.map_eq_some'.mp hp
      simp only [projectOfRow, List.mem_map] at hmem
      obtain ⟨fr, hfr, hfrid⟩ := hmem
      have hfr' := List.mem_filter.mp hfr
      have : fr ∈ (deleteFunction st fid now).functions := hfr'.1
      simp only [deleteFunction] at this
      have := (List.mem_filter.mp this).2
      rw [hfrid] at this
      simp at this
    · intro eid' ep hp hmem
      obtain ⟨r, hr, rfl⟩ := Option.map_eq_some'.mp hp
      simp only [endpointOfRow, List.mem_map] at hmem
      obtain ⟨pr, hpr, hprid⟩ := hmem
      have hpr' := List.mem_filter.mp hpr
      have : pr ∈ (deleteFunction st fid now).epFun := hpr'.1
      simp only [deleteFunction] at this
      have := (List.mem_filter.mp this).2
      rw [hprid] at this
      simp at this
  · constructor
    · intro pid proj hp hmem
      obtain ⟨r, hr, rfl⟩ := Option.map_eq_some'.mp hp
      simp only [projectOfRow, List.mem_map] at hmem
      obtain ⟨er, her, herid⟩ := hmem
      have her' := List.mem_filter.mp her
      have : er ∈ (deleteApiEndpoint st eid now).endpoints := her'.1
      simp only [deleteApiEndpoint] at this
      have := (List.mem_filter.mp this).2
      rw [herid] at this
      simp at this
    · intro fid' f hp hmem
      obtain ⟨r, hr, rfl⟩ := Option.map_eq_some'.mp hp
      simp only [functionOfRow, List.mem_map] at hmem
      obtain ⟨pr, hpr, hprid⟩ := hmem
      have hpr' := List.mem_filter.mp hpr
      have : pr ∈ (deleteApiEndpoint st eid now).epFun := hpr'.1
      simp only [deleteApiEndpoint] at this
      have := (List.mem_filter.mp this).2
      rw [hprid] at this
      simp at this

/-- Witness for C4 (amended) at the concrete associated store. -/
theorem claim_C4_witness :
    ("f1").toList ∉ (projectOfRow (deleteFunction c4Store (("f1").toList) (("t1").toList))
      { c1Project with updatedAt := ("t1").toList }).functions
    ∧ ("e1").toList ∉ (functionOfRow (deleteApiEndpoint c4Store (("e1").toList)
      (("t1").toList)) c4Function).relatedApiEndpoints :=
  ⟨(claim_C4_amended c4Store (("f1").toList) (("e1").toList) (("t1").toList)).1.1
      (("p1").toList) _ (by decide),
   (claim_C4_amended c4Store (("f1").toList) (("e1").toList) (("t1").toList)).2.2
      (("f1").toList) _ (by decide)⟩

/-! ## Claim C2 — last-write-wins upsert keyed by the derived id -/
theorem filter_key_nil {α : Type} (key : α → Bool) (getId : α → Str) (id : Str) :
    ∀ tbl : List α, (∀ r ∈ tbl, key r = true → getId r = id) →
      (∀ r ∈ tbl, getId r ≠ id) → tbl.filter key = []
  | [], _, _ => rfl
  | r :: rest, hkey, hne => by
    have hkr : key r = false := by
      cases h : key r
      · rfl
      · exact absurd (hkey r (by simp) h) (hne r (by simp))
    rw [List.filter_cons_of_neg (by simp [hkr])]
    exact filter_key_nil key getId id rest
      (fun x hx => hkey x (by simp [hx]))
      (fun x hx => hne x (by simp [hx]))

theorem map_replace_eq_self {α : Type} (getId : α → Str) (id : Str)
    (mk : Option α → α) (tbl : List α) (h : ∀ r ∈ tbl, getId r ≠ id) :
    tbl.map (fun r => if getId r = id then mk (some r) else r) = tbl := by
  have := List.map_congr_left (l := tbl)
    (f := fun r => if getId r = id then mk (some r) else r) (g := fun r => r)
    (fun r hr => by
      show (if getId r = id then mk (some r) else r) = r
      rw [if_neg (h r hr)])
  rw [this, List.map_id']

/-- Membership in an `upsertBy` result: either a freshly built row or an
untouched old row. -/
theorem mem_upsertBy_cases {α : Type} (getId : α → Str) (id : Str)
    (mk : Option α → α) (tbl : List α) {r : α}
    (hr : r ∈ upsertBy getId tbl id mk) :
    (∃ old, r = mk old) ∨ r ∈ tbl := by
  unfold upsertBy at hr
  split at hr
  · obtain ⟨x, hx, hfx⟩ := List.mem_map.mp hr
    by_cases hid : getId x = id
    · rw [if_pos hid] at hfx
      exact Or.inl ⟨some x, hfx.symm⟩
    · rw [if_neg hid] at hfx
      exact Or.inr (hfx ▸ hx)
  · rcases List.mem_append.mp hr with h | h
    · exact Or.inr h
    · exact Or.inl ⟨none, List.mem_singleton.mp h⟩

/-- `upsertBy` keeps the id column duplicate-free. -/
theorem upsertBy_nodup {α : Type} (getId : α → Str) (id : Str)
    (mk : Option α → α) (hmk : ∀ old, getId (mk old) = id) (tbl : List α)
    (hnd : (tbl.map getId).Nodup) :
    ((upsertBy getId tbl id mk).map getId).Nodup := by
  by_cases hany : tbl.any (fun r => decide (getId r = id)) = true
  · rw [upsertBy_map_getId_of_any getId tbl id mk hmk hany]
    exact hnd
  · unfold upsertBy
    rw [if_neg (by simpa using hany), List.map_append]
    simp only [List.map_cons, List.map_nil, hmk]
    rw [List.nodup_append]
    refine ⟨hnd, List.nodup_singleton _, ?_⟩
    intro x hx
    simp only [List.mem_singleton]
    obtain ⟨r, hrm, rfl⟩ := List.mem_map.mp hx
    intro hxid
    have : tbl.any (fun r => decide (getId r = id)) = true :=
      List.any_eq_true.mpr ⟨r, hrm, by simp [hxid]⟩
    exact hany this

/-- After an `upsertBy`, the rows matching the natural key are exactly one
row produced by the row builder, provided ids are unique and every
key-matching row already carried the derived id. -/
theorem filter_upsertBy_key {α : Type} (getId : α → Str) (key : α → Bool)
    (id : Str) (mk : Option α → α)
    (hmkKey : ∀ old, key (mk old) = true) (hmkId : ∀ old, getId (mk old) = id) :
    ∀ tbl : List α, (∀ r ∈ tbl, key r = true → getId r = id) →
      (tbl.map getId).Nodup →
      ∃ old : Option α, (upsertBy getId tbl id mk).filter key = [mk old]
  | [], _, _ => by
    refine ⟨none, ?_⟩
    unfold upsertBy
    simp [List.filter, hmkKey]
  | r :: rest, hkey, hnd => by
    by_cases hr : getId r = id
    · have hany : (r :: rest).any (fun x => decide (getId x = id)) = true :=
        List.any_eq_true.mpr ⟨r, by simp [hr]⟩
      refine ⟨some r, ?_⟩
      unfold upsertBy
      rw [if_pos hany, List.map_cons, if_pos hr]
      have hrestne : ∀ x ∈ rest, getId x ≠ id := by
        intro x hx hxid
        have hnd' := hnd
        rw [List.map_cons, List.nodup_cons] at hnd'
        exact hnd'.1 (hr ▸ hxid ▸ List.mem_map.mpr ⟨x, hx, rfl⟩)
      rw [map_replace_eq_self getId id mk rest hrestne,
        List.filter_cons_of_pos (by simp [hmkKey]),
        filter_key_nil key getId id rest (fun x hx => hkey x (by simp [hx])) hrestne]
    · have hkr : key r = false := by
        cases h : key r
        · rfl
        · exact absurd (hkey r (by simp) h) hr
      by_cases hrest : rest.any (fun x => decide (getId x = id)) = true
      · have hany : (r :: rest).any (fun x => decide (getId x = id)) = true := by
          simp [List.any_cons, hrest]
        obtain ⟨old, hold⟩ := filter_upsertBy_key getId key id mk hmkKey hmkId rest
          (fun x hx => hkey x (by simp [hx]))
          (by rw [List.map_cons, List.nodup_cons] at hnd; exact hnd.2)
        rw [show upsertBy getId rest id mk
            = rest.map (fun x => if getId x = id then mk (some x) else x) from by
          unfold upsertBy; rw [if_pos hrest]] at hold
        refine ⟨old, ?_⟩
        unfold upsertBy
        rw [if_pos hany, List.map_cons, if_neg hr,
          List.filter_cons_of_neg (by simp [hkr])]
        exact hold
      · have hrest' : rest.any (fun x => decide (getId x = id)) = false := by
          simpa using hrest
        have hany : (r :: rest).any (fun x => decide (getId x = id)) = false := by
          simp [List.any_cons, hrest', hr]
        refine ⟨none, ?_⟩
        unfold upsertBy
        rw [hany]
        simp only [Bool.false_eq_true, if_false, List.cons_append,
          List.filter_cons_of_neg (by simp [hkr] : ¬(key r = true))]
        rw [List.filter_append,
          filter_key_nil key getId id rest (fun x hx => hkey x (by simp [hx]))
            (fun x hx hxid => absurd
              (show (rest.any fun y => decide (getId y = id)) = true from
                List.any_eq_true.mpr ⟨x, hx, decide_eq_true hxid⟩)
              (by simp [hrest']))]
        simp [List.filter, hmkKey]

/-- C2: saving an endpoint twice with the same (projectId, method, path)
but different descriptions leaves exactly one stored row for that key,
and its description is the one supplied by the second save.  The
hypotheses say the store is well formed: row ids are unique and any row
already carrying this key carries the derived id (which every row written
through `createApiEndpoint` does). -/
theorem claim_C2 (st : Store) (pid m pth d1 d2 impl1 impl2 : Str)
    (rq1 rs1 rq2 rs2 : Option Schema) (tg1 tg2 : List Str) (n1 n2 now1 now2 : Str)
    (hnd : (st.endpoints.map EndpointRow.id).Nodup)
    (hkey : ∀ r ∈ st.endpoints, r.projectId = pid → r.method = m → r.path = pth →
      r.id = generateEndpointId pid m pth) :
    (((saveApiEndpoint
        (saveApiEndpoint st (createApiEndpoint pid m pth d1 impl1 rq1 rs1 tg1 n1) now1)
        (createApiEndpoint pid m pth d2 impl2 rq2 rs2 tg2 n2) now2).endpoints.filter
          (fun r => decide (r.projectId = pid) && decide (r.method = m)
            && decide (r.path = pth))).map EndpointRow.description) = [d2] := by
  set key : EndpointRow → Bool := fun r => decide (r.projectId = pid)
    && decide (r.method = m) && decide (r.path = pth) with hkeydef
  set e1 := createApiEndpoint pid m pth d1 impl1 rq1 rs1 tg1 n1 with he1
  set e2 := createApiEndpoint pid m pth d2 impl2 rq2 rs2 tg2 n2 with he2
  have hid1 : e1.id = generateEndpointId pid m pth := rfl
  have hid2 : e2.id = generateEndpointId pid m pth := rfl
  rw [saveApiEndpoint_endpoints, saveApiEndpoint_endpoints]
  set tbl1 := upsertBy EndpointRow.id st.endpoints e1.id (endpointRowOfModel e1) with htbl1
  have hmkKey2 : ∀ old, key (endpointRowOfModel e2 old) = true := by
    intro old
    simp [hkeydef, endpointRowOfModel, he2, createApiEndpoint]
  have hmkId2 : ∀ old, (endpointRowOfModel e2 old).id = e2.id := fun _ => rfl
  have hkey1 : ∀ r ∈ tbl1, key r = true → r.id = e2.id := by
    intro r hr hk
    rcases mem_upsertBy_cases EndpointRow.id e1.id (endpointRowOfModel e1) st.endpoints hr with
      ⟨old, rfl⟩ | hmem
    · rw [show (endpointRowOfModel e1 old).id = e1.id from rfl, hid1, hid2]
    · simp only [hkeydef, Bool.and_eq_true, decide_eq_true_eq] at hk
      rw [hid2]
      exact hkey r hmem hk.1.1 hk.1.2 hk.2
  have hnd1 : (tbl1.map EndpointRow.id).Nodup :=
    upsertBy_nodup EndpointRow.id e1.id (endpointRowOfModel e1) (fun _ => rfl)
      st.endpoints hnd
  obtain ⟨old, hold⟩ := filter_upsertBy_key EndpointRow.id key e2.id
    (endpointRowOfModel e2) hmkKey2 hmkId2 tbl1 hkey1 hnd1
  rw [hold]
  rfl

/-- Witness for C2 at the empty store. -/
theorem claim_C2_witness :
    (((saveApiEndpoint
        (saveApiEndpoint ⟨[], [], [], [], []⟩
          (createApiEndpoint (("p1").toList) (("GET").toList) (("/u").toList)
            (("old desc").toList) (("a.ts").toList) none none [] (("t0").toList))
          (("t0").toList))
        (createApiEndpoint (("p1").toList) (("GET").toList) (("/u").toList)
          (("new desc").toList) (("b.ts").toList) none none [] (("t1").toList))
        (("t1").toList)).endpoints.filter
          (fun r => decide (r.projectId = ("p1").toList)
            && decide (r.method = ("GET").toList)
            && decide (r.path = ("/u").toList))).map EndpointRow.description)
      = [("new desc").toList] :=
  claim_C2 ⟨[], [], [], [], []⟩ (("p1").toList) (("GET").toList) (("/u").toList)
    (("old desc").toList) (("new desc").toList) (("a.ts").toList) (("b.ts").toList)
    none none none none [] [] (("t0").toList) (("t1").toList) (("t0").toList)
    (("t1").toList) (by decide) (by intro r hr; simp at hr)

/-! ## Claim C8 — orphan writes succeed and touch no project -/
theorem splitSep_joinSep (c : Char) :
    ∀ l : List Str, l ≠ [] → (∀ t ∈ l, c ∉ t) →
      splitSep c (joinSep c l) = l
  | [], h, _ => absurd rfl h
  | [s], _, hc => by
    rw [show joinSep c [s] = s from rfl, splitSep_of_not_mem c s (hc s (by simp))]
  | s :: s' :: rest, _, hc => by
    rw [show joinSep c (s :: s' :: rest) = s ++ c :: joinSep c (s' :: rest) from rfl,
      splitSep_append, splitSep_of_not_mem c s (hc s (by simp)),
      splitSep_joinSep c (s' :: rest) (by simp) (fun t ht => hc t (by simp [ht]))]
    rfl

/-- A comma-free list other than `[""]` survives the simple-array
column round trip. -/
theorem readArr_writeArr (l : List Str) (hc : ∀ t ∈ l, ',' ∉ t)
    (hne : l ≠ [[]]) : readArr (writeArr l) = l := by
  match l with
  | [] => simp [readArr, writeArr, joinSep]
  | [s] =>
    have hs : s ≠ [] := fun h => hne (by rw [h])
    simp only [writeArr, readArr]
    rw [show joinSep ',' [s] = s from rfl, if_neg hs,
      splitSep_of_not_mem ',' s (hc s (by simp))]
  | s :: s' :: rest =>
    have hj : joinSep ',' (s :: s' :: rest) = s ++ ',' :: joinSep ',' (s' :: rest) := rfl
    simp only [writeArr, readArr]
    rw [hj, if_neg (by simp), ← hj, splitSep_joinSep ',' _ (by simp) hc]

/-- C8: the claimed orphan-save permissiveness is not what the program
delivers.  `api_endpoints.project_id` and `functions.project_id` are
foreign keys into `projects.id`, so saving an endpoint or a function
whose `projectId` matches no stored project raises a constraint
violation instead of silently persisting the row: on the empty store,
both saves error and nothing is written — the tool boundary reports
`success: false` rather than a successful write. -/
theorem claim_C8_code_behavior :
    saveApiEndpointE ⟨[], [], [], [], []⟩ c8Endpoint (("t1").toList)
        = .error fkViolationMsg
    ∧ saveFunctionE ⟨[], [], [], [], []⟩ c8Function (("t1").toList)
        = .error fkViolationMsg :=
  ⟨rfl, rfl⟩

theorem any_map_getId {α : Type} (getId : α → Str) (q : Str) :
    ∀ tb : List α, tb.any (fun r => decide (getId r = q))
      = (tb.map getId).any (fun i => decide (i = q))
  | [] => rfl
  | r :: rest => by
    simp only [List.any_cons, List.map_cons, any_map_getId getId q rest]

theorem foldl_noop {β : Type} (step : Store → β → Store) (init : Store) :
    ∀ l : List β, (∀ x ∈ l, step init x = init) → l.foldl step init = init
  | [], _ => rfl
  | x :: xs, h => by
    rw [List.foldl_cons, h x (by simp)]
    exact foldl_noop step init xs (fun y hy => h y (by simp [hy]))

/-- When every related endpoint already lists the function (as the shared
association table guarantees once the function row exists), `saveFunction`
reduces to its row upsert: the project append is skipped because the
upserted row already appears in the project's computed list, and the
endpoint loop never fires. -/
theorem saveFunction_eq_of_loop_mem (st : Store) (g : Function) (now : Str)
    (hloop : ∀ eid ∈ g.relatedApiEndpoints, ∀ ep,
      getApiEndpoint (saveFnRow st g) eid = some ep → g.id ∈ ep.relatedFunctions) :
    saveFunction st g now = saveFnRow st g := by
  unfold saveFunction saveFnRow
  unfold saveFnRow at hloop
  dsimp only
  have hmem : ∀ proj, getProject { st with functions := upsertBy FunctionRow.id st.functions g.id (fun _ => functionRowOfModel g) } g.projectId = some proj → g.id ∈ proj.functions := by
    intro proj hgp
    obtain ⟨rp, hrp, rfl⟩ := Option.map_eq_some'.mp hgp
    have hpid : rp.id = g.projectId := of_decide_eq_true
      (List.find?_some (p := fun (r : ProjectRow) => decide (r.id = g.projectId)) hrp)
    simp only [projectOfRow, List.mem_map]
    refine ⟨functionRowOfModel g, List.mem_filter.mpr ⟨?_, ?_⟩, rfl⟩
    · exact upsertBy_mem_const FunctionRow.id st.functions g.id (functionRowOfModel g) rfl
    · simp [functionRowOfModel, hpid]
  have hstep : ∀ eid ∈ g.relatedApiEndpoints,
      (fun (acc : Store) (eid : Str) =>
        match getApiEndpoint acc eid with
        | none => acc
        | some ep =>
          if g.id ∈ ep.relatedFunctions then acc
          else saveApiEndpoint acc
            { ep with
              relatedFunctions := ep.relatedFunctions ++ [g.id]
              updatedAt := now } now)
        { st with functions := upsertBy FunctionRow.id st.functions g.id (fun _ => functionRowOfModel g) } eid
      = { st with functions := upsertBy FunctionRow.id st.functions g.id (fun _ => functionRowOfModel g) } := by
    intro eid heid
    cases hge : getApiEndpoint { st with functions := upsertBy FunctionRow.id st.functions g.id (fun _ => functionRowOfModel g) } eid with
    | none => simp only [hge]
    | some ep =>
      simp only [hge]
      rw [if_pos (hloop eid heid ep hge)]
  split
  · exact foldl_noop _ _ _ hstep
  · rename_i proj hgp
    rw [if_pos (hmem proj hgp)]
    exact foldl_noop _ _ _ hstep

/-- C9 counterexample: the `simple-array` column stores `usageExamples`
comma-joined, so adding the single example `"a,b"` to a function with no
examples reads back as the two examples `["a", "b"]`, not as
`[] ++ ["a,b"]` — the call reports success yet the stored list is not the
old list with the example appended. -/
theorem claim_C9_counterexample :
    (addUsageExample c9Store (("f1").toList) (("a,b").toList) (("t1").toList)).1.success
        = true
    ∧ ((getFunction (addUsageExample c9Store (("f1").toList) (("a,b").toList)
          (("t1").toList)).2 (("f1").toList)).map Function.usageExamples)
        = some [("a").toList, ("b").toList]
    ∧ ¬(((getFunction (addUsageExample c9Store (("f1").toList) (("a,b").toList)
          (("t1").toList)).2 (("f1").toList)).map Function.usageExamples)
        = some [("a,b").toList]) := by
  decide

/-- Reading back a function row written from a model recovers the model
when the array columns round-trip and the association views match. -/
theorem functionOfRow_model_roundtrip (st' : Store) (g : Function)
    (htags : readArr (writeArr g.tags) = g.tags)
    (huse : readArr (writeArr g.usageExamples) = g.usageExamples)
    (hrae : (st'.epFun.filter (fun pr => decide (pr.2 = g.id)
        && existsRowE st' pr.1)).map (fun x => x.1) = g.relatedApiEndpoints)
    (hrf : (st'.funFun.filter (fun pr => decide (pr.1 = g.id)
        && existsRowF st' pr.2)).map (fun x => x.2) = g.relatedFunctions) :
    functionOfRow st' (functionRowOfModel g) = g := by
  obtain ⟨gid, gpid, gn, gdesc, gpar, grt, grd, gimpl, gip, gsl, gel, gpur, gcr, gup,
    gtags, grae, grf, guse⟩ := g
  simp only [functionOfRow, functionRowOfModel, Function.mk.injEq,
    eq_self_iff_true, and_true, true_and] at htags huse hrae hrf ⊢
  exact ⟨htags, hrae, hrf, huse⟩

/-- C9 (amended): for every stored function `F` (with a non-empty id) and
every non-empty, comma-free example string, `addUsageExample` returns
success carrying the function id, and the stored function afterwards is
exactly `F` with the example appended to `usageExamples` and `updatedAt`
bumped — every other field unchanged.  (For examples containing a comma
the stored list differs, see the counterexample.) -/
theorem claim_C9_amended (st : Store) (fid ex now : Str) (F : Function)
    (hF : getFunction st fid = some F)
    (hfid : fid ≠ []) (hex : ex ≠ []) (hc : ',' ∉ ex) :
    (addUsageExample st fid ex now).1
        = { success := true, functionId := some fid, error := none }
    ∧ getFunction (addUsageExample st fid ex now).2 fid
        = some { F with usageExamples := F.usageExamples ++ [ex], updatedAt := now } := by
  obtain ⟨r0, hr0, rfl⟩ := Option.map_eq_some'.mp hF
  have hid : r0.id = fid := of_decide_eq_true
    (List.find?_some (p := fun (r : FunctionRow) => decide (r.id = fid)) hr0)
  unfold addUsageExample
  rw [if_neg hfid, if_neg hex]
  unfold getFunction
  rw [hr0]
  dsimp only [Option.map_some']
  refine ⟨rfl, ?_⟩
  set g : Function := { functionOfRow st r0 with
    usageExamples := (functionOfRow st r0).usageExamples ++ [ex]
    updatedAt := now } with hg
  have hgid : g.id = fid := hid
  have hsave : saveFunction st g now = saveFnRow st g := by
    apply saveFunction_eq_of_loop_mem
    intro eid heid ep hep
    obtain ⟨er, her, rfl⟩ := Option.map_eq_some'.mp hep
    have herid : er.id = eid := of_decide_eq_true
      (List.find?_some (p := fun (r : EndpointRow) => decide (r.id = eid)) her)
    have heid' : eid ∈ (functionOfRow st r0).relatedApiEndpoints := heid
    simp only [functionOfRow, List.mem_map] at heid'
    obtain ⟨pr, hprf, hpr1⟩ := heid'
    have hprmem := List.mem_filter.mp hprf
    have hpr2 : pr.2 = r0.id := by
      have := hprmem.2
      simp only [Bool.and_eq_true, decide_eq_true_eq] at this
      exact this.1
    simp only [endpointOfRow, List.mem_map]
    refine ⟨pr, List.mem_filter.mpr ⟨hprmem.1, ?_⟩, by rw [hpr2]; exact rfl⟩
    simp only [Bool.and_eq_true, decide_eq_true_eq]
    refine ⟨by rw [hpr1, herid], ?_⟩
    unfold existsRowF
    exact List.any_eq_true.mpr ⟨functionRowOfModel g,
      upsertBy_mem_const FunctionRow.id st.functions g.id (functionRowOfModel g) rfl,
      decide_eq_true (show (functionRowOfModel g).id = pr.2 from by
        rw [hpr2]; exact rfl)⟩
  rw [hsave]
  unfold saveFnRow
  dsimp only
  rw [← hgid,
    find?_upsertBy FunctionRow.id g.id (fun _ => functionRowOfModel g) (fun _ => rfl)
      st.functions]
  dsimp only [Option.map_some']
  congr 1
  have hexF : ∀ q, existsRowF (saveFnRow st g) q = existsRowF st q := by
    intro q
    have hany : st.functions.any (fun r => decide (r.id = g.id)) = true :=
      List.any_eq_true.mpr ⟨r0, List.mem_of_find?_eq_some hr0,
        decide_eq_true (by rw [hid]; exact hgid.symm)⟩
    have hmap := upsertBy_map_getId_of_any FunctionRow.id st.functions g.id
      (fun _ => functionRowOfModel g) (fun _ => rfl) hany
    unfold existsRowF saveFnRow
    dsimp only
    rw [any_map_getId FunctionRow.id q, any_map_getId FunctionRow.id q, hmap]
  have h1 : ∀ pr : Str × Str,
      (decide (pr.1 = g.id) && existsRowF (saveFnRow st g) pr.2)
        = (decide (pr.1 = g.id) && existsRowF st pr.2) := by
    intro pr
    rw [hexF pr.2]
  apply functionOfRow_model_roundtrip (saveFnRow st g) g
  · exact readArr_writeArr_readArr r0.tags
  · exact readArr_writeArr_append r0.usageExamples ex hex hc
  · exact rfl
  · exact congrArg (List.map (fun x => x.2))
      (List.filter_congr (fun pr _ => h1 pr))

/-- Witness for C9 (amended), appending a clean example to the stored
function `f1`. -/
theorem claim_C9_witness :
    (addUsageExample c9Store (("f1").toList) (("use it").toList) (("t1").toList)).1
        = { success := true, functionId := some (("f1").toList), error := none }
    ∧ getFunction (addUsageExample c9Store (("f1").toList) (("use it").toList)
          (("t1").toList)).2 (("f1").toList)
        = some { functionOfRow c9Store c4Function with
            usageExamples := (functionOfRow c9Store c4Function).usageExamples
              ++ [("use it").toList]
            updatedAt := ("t1").toList } :=
  claim_C9_amended c9Store (("f1").toList) (("use it").toList) (("t1").toList)
    (functionOfRow c9Store c4Function) (by decide) (by decide) (by decide) (by decide)

theorem funcMatches_c5 (p : Str) (rx : JsRegex) (hp : ¬ p = [])
    (hparse : parseRegex p = some rx) (f : Function) :
    funcMatches (c5Input p) f = .ok (reTest rx f.name) := by
  unfold funcMatches c5Input
  simp only [optTruthy, if_neg hp, hparse]
  cases hre : reTest rx f.name <;>
    simp [hre, funcMatches.funcMatchesTail, optTruthy]

theorem filterFunctionsE_c5 (p : Str) (rx : JsRegex) (hp : ¬ p = [])
    (hparse : parseRegex p = some rx) (l : List Function) :
    filterFunctionsE (c5Input p) l = .ok (l.filter (fun f => reTest rx f.name)) := by
  induction l with
  | nil => rfl
  | cons f rest ih =>
    rw [filterFunctionsE, funcMatches_c5 p rx hp hparse f, ih, List.filter_cons]

theorem execute_c5_valid (st : Store) (p : Str) (rx : JsRegex) (hp : ¬ p = [])
    (hparse : parseRegex p = some rx) :
    execute st (c5Input p) =
      { success := true,
        results := some (((gatherFunctions st (c5Input p)).filter
          (fun f => reTest rx f.name)).map QEntity.fn),
        error := none } := by
  have ht : (c5Input p).type = ("function").toList := rfl
  have h1 : executeGather st (c5Input p) =
      .ok (((gatherFunctions st (c5Input p)).filter
        (fun f => reTest rx f.name)).map QEntity.fn) := by
    unfold executeGather
    have h2 : ¬(("function").toList = ("project").toList
        ∨ ("function").toList = ("all").toList) := by decide
    have h3 : ¬(("function").toList = ("api-endpoint").toList
        ∨ ("function").toList = ("all").toList) := by decide
    have h4 : ("function").toList = ("function").toList
        ∨ ("function").toList = ("all").toList := Or.inl rfl
    rw [ht, if_neg h2, if_neg h3, if_pos h4, filterFunctionsE_c5 p rx hp hparse]
    simp
  have ht0 : ¬ (c5Input p).type = [] := by rw [ht]; decide
  unfold execute
  rw [if_neg ht0, h1]

theorem funcMatches_c5bad (f : Function) :
    funcMatches c5BadInput f = .error (invalidRegexMsg (("(").toList)) := rfl

theorem execute_c5_bad (st : Store) (hne : gatherFunctions st c5BadInput ≠ []) :
    execute st c5BadInput =
      { success := false, results := none,
        error := some (invalidRegexMsg (("(").toList)) } := by
  obtain ⟨f, rest, hfr⟩ : ∃ f rest, gatherFunctions st c5BadInput = f :: rest := by
    cases h : gatherFunctions st c5BadInput with
    | nil => exact absurd h hne
    | cons f rest => exact ⟨f, rest, rfl⟩
  have hfe : filterFunctionsE c5BadInput (gatherFunctions st c5BadInput)
      = .error (invalidRegexMsg (("(").toList)) := by
    rw [hfr, filterFunctionsE, funcMatches_c5bad]
  have h1 : executeGather st c5BadInput = .error (invalidRegexMsg (("(").toList)) := by
    unfold executeGather
    rw [if_neg (by decide :
          ¬(c5BadInput.type = ("project").toList ∨ c5BadInput.type = ("all").toList)),
        if_neg (by decide :
          ¬(c5BadInput.type = ("api-endpoint").toList ∨ c5BadInput.type = ("all").toList)),
        if_pos (by decide :
          c5BadInput.type = ("function").toList ∨ c5BadInput.type = ("all").toList),
        hfe]
  unfold execute
  rw [if_neg (by decide : ¬ c5BadInput.type = []), h1]

/-- C5 counterexample: with no stored functions at all (an admissible
"stored collection of functions" under the claim's universal
quantifier), the malformed pattern `(` is never compiled — the filter
callback never runs — so the query returns `success: true` with an
empty result list, exactly the outcome the claim says cannot happen. -/
theorem claim_C5_counterexample :
    execute c5EmptyStore c5BadInput
      = { success := true, results := some [], error := none } := by
  decide

/-- C5 (amended): a function query whose only filter is a parseable
`namePattern` succeeds with exactly the gathered functions whose name
the pattern matches; the malformed pattern `(` yields `success: false`
with the engine's error message provided at least one function is
gathered (with none, the pattern is never compiled and the query
silently succeeds with `[]`, per the counterexample). -/
theorem claim_C5_amended :
    (∀ (st : Store) (p : Str) (rx : JsRegex), ¬ p = [] → parseRegex p = some rx →
      execute st (c5Input p) =
        { success := true,
          results := some (((gatherFunctions st (c5Input p)).filter
            (fun f => reTest rx f.name)).map QEntity.fn),
          error := none })
    ∧ (∀ st : Store, gatherFunctions st c5BadInput ≠ [] →
      execute st c5BadInput =
        { success := false, results := none,
          error := some (invalidRegexMsg (("(").toList)) }) :=
  ⟨execute_c5_valid, execute_c5_bad⟩

/-- Witness for C5 (amended): a store holding `getUsers` and
`makeThing`; the pattern `^get` parses to `c5Rx` and the query filters
by it, and the pattern `(` errors since a function is gathered. -/
theorem claim_C5_witness :
    (execute c5WitStore (c5Input (("^get").toList)) =
      { success := true,
        results := some (((gatherFunctions c5WitStore (c5Input (("^get").toList))).filter
          (fun f => reTest c5Rx f.name)).map QEntity.fn),
        error := none })
    ∧ (execute c5WitStore c5BadInput =
      { success := false, results := none,
        error := some (invalidRegexMsg (("(").toList)) }) :=
  ⟨claim_C5_amended.1 c5WitStore (("^get").toList) c5Rx (by decide) (by decide),
   claim_C5_amended.2 c5WitStore (by decide)⟩

/-- C10: a query whose `type` is non-empty but none of `project`,
`api-endpoint`, `function`, `all` passes the emptiness validation, runs
no section, and is answered `success: true` with an empty result list —
an unrecognized entity type is not reported as a validation error. -/
theorem claim_C10 (st : Store) (input : QueryInput)
    (hne : input.type ≠ [])
    (hp : input.type ≠ ("project").toList)
    (he : input.type ≠ ("api-endpoint").toList)
    (hf : input.type ≠ ("function").toList)
    (ha : input.type ≠ ("all").toList) :
    execute st input = { success := true, results := some [], error := none } := by
  have h1 : executeGather st input = .ok [] := by
    unfold executeGather
    rw [if_neg (fun h => h.elim hp ha), if_neg (fun h => h.elim he ha),
        if_neg (fun h => h.elim hf ha)]
    rfl
  unfold execute
  rw [if_neg hne, h1]

/-- Witness for C10: the unknown type `component` on an empty store. -/
theorem claim_C10_witness :
    execute c10Store c10Input = { success := true, results := some [], error := none } :=
  claim_C10 c10Store c10Input (by decide) (by decide) (by decide) (by decide) (by decide)

/-- C6 counterexample: scanning the claim's three-line file yields TWO
extracted functions, not one — `function add(a: number, b: number):
number {` is matched both by the function pattern (at index 0) and by
the class-method pattern (name + parenthesised parameters, at the space
before `add`), while the arrow pattern finds nothing (`=>` is absent);
the class-method copy differs only in its description `Method add`. -/
theorem claim_C6_counterexample :
    (extractFunctions c6Content c6Path c6Pid c6Now).length = 2
    ∧ ¬ (extractFunctions c6Content c6Path c6Pid c6Now).length = 1 := by
  decide

/-- C6 (amended): the scan yields exactly two entries, duplicates from
the function-pattern and class-method-pattern families; each has name
`add`, parameters `a` and `b` of type `number` and not optional, return
type `number`, `startLine` 1 and `endLine` 3, and implementation equal
to the exact three-line text — the fields the claim lists are right for
every extracted entry, only the count differs (and the descriptions are
`Function add` and `Method add` respectively). -/
theorem claim_C6_amended :
    extractFunctions c6Content c6Path c6Pid c6Now =
      [ { id := generateFunctionId c6Pid (("add").toList) c6Path,
          projectId := c6Pid, name := ("add").toList,
          description := ("Function add").toList,
          parameters := [
            { name := ("a").toList, type := ("number").toList,
              description := ("Parameter a").toList,
              isOptional := false, defaultValue := none },
            { name := ("b").toList, type := ("number").toList,
              description := ("Parameter b").toList,
              isOptional := false, defaultValue := none }],
          returnType := ("number").toList,
          returnDescription := ("Returns number").toList,
          implementation := c6Content, implementationPath := c6Path,
          startLine := 1, endLine := 3,
          purpose := ("Implements functionality for add").toList,
          createdAt := c6Now, updatedAt := c6Now, tags := [],
          relatedApiEndpoints := [], relatedFunctions := [],
          usageExamples := [] },
        { id := generateFunctionId c6Pid (("add").toList) c6Path,
          projectId := c6Pid, name := ("add").toList,
          description := ("Method add").toList,
          parameters := [
            { name := ("a").toList, type := ("number").toList,
              description := ("Parameter a").toList,
              isOptional := false, defaultValue := none },
            { name := ("b").toList, type := ("number").toList,
              description := ("Parameter b").toList,
              isOptional := false, defaultValue := none }],
          returnType := ("number").toList,
          returnDescription := ("Returns number").toList,
          implementation := c6Content, implementationPath := c6Path,
          startLine := 1, endLine := 3,
          purpose := ("Implements functionality for add").toList,
          createdAt := c6Now, updatedAt := c6Now, tags := [],
          relatedApiEndpoints := [], relatedFunctions := [],
          usageExamples := [] } ] := by
  decide

mutual

theorem findFilesEntry_shape (dir pattern : Str) :
    ∀ (e : FsEntry) (files : List Str), findFilesEntry dir pattern e = some files →
      ∀ p ∈ files, ∃ comps fname, p = (comps ++ [fname]).foldl pathJoin dir
        ∧ ∀ c ∈ comps, isExcluded c = false
  | .file name, files, h, p, hp => by
    unfold findFilesEntry at h
    cases hm : matchPatternE name pattern with
    | none => rw [hm] at h; exact absurd h (by simp)
    | some b =>
      rw [hm] at h
      cases b with
      | false =>
        simp only [Option.some.injEq] at h
        subst h
        simp at hp
      | true =>
        simp only [Option.some.injEq] at h
        subst h
        have hp1 : p = pathJoin dir name := by simpa using hp
        exact ⟨[], name, by simpa using hp1, by simp⟩
  | .dir name children, files, h, p, hp => by
    unfold findFilesEntry at h
    cases hex : isExcluded name with
    | true =>
      rw [hex] at h
      simp only [if_true] at h
      simp only [Option.some.injEq] at h
      subst h
      simp at hp
    | false =>
      rw [hex] at h
      simp only [Bool.false_eq_true, if_false] at h
      obtain ⟨comps, fname, hpeq, hclean⟩ :=
        findFilesE_shape (pathJoin dir name) pattern children files h p hp
      refine ⟨name :: comps, fname, by simpa using hpeq, ?_⟩
      intro c hc
      rcases List.mem_cons.mp hc with rfl | hc
      · exact hex
      · exact hclean c hc
  | .other s, files, h, p, hp => by
    unfold findFilesEntry at h
    simp only [Option.some.injEq] at h
    subst h
    simp at hp

theorem findFilesE_shape (dir pattern : Str) :
    ∀ (l : FsList) (files : List Str), findFilesE dir pattern l = some files →
      ∀ p ∈ files, ∃ comps fname, p = (comps ++ [fname]).foldl pathJoin dir
        ∧ ∀ c ∈ comps, isExcluded c = false
  | .nil, files, h, p, hp => by
    unfold findFilesE at h
    simp only [Option.some.injEq] at h
    subst h
    simp at hp
  | .cons e rest, files, h, p, hp => by
    unfold findFilesE at h
    cases h1 : findFilesEntry dir pattern e with
    | none => rw [h1] at h; exact absurd h (by simp)
    | some l1 =>
      cases h2 : findFilesE dir pattern rest with
      | none => rw [h1, h2] at h; exact absurd h (by simp)
      | some l2 =>
        rw [h1, h2] at h
        simp only [Option.some.injEq] at h
        subst h
        rcases List.mem_append.mp hp with hp1 | hp2
        · exact findFilesEntry_shape dir pattern e l1 h1 p hp1
        · exact findFilesE_shape dir pattern rest l2 h2 p hp2

end

/-- C7: whenever `findFiles(dir, pattern)` returns a file list, every
returned path is the root joined with the names of the directories the
walker actually entered and a final file name, and none of those
entered directory names is `node_modules`, `.git` or `.codenexus` —
the walker never descends into such a directory, whatever the pattern
would match inside it. -/
theorem claim_C7 (dir pattern : Str) (t : FsList) (files : List Str)
    (h : findFilesE dir pattern t = some files) :
    ∀ p ∈ files, ∃ comps fname, p = (comps ++ [fname]).foldl pathJoin dir
      ∧ ∀ c ∈ comps, isExcluded c = false :=
  findFilesE_shape dir pattern t files h

/-- Witness for C7: on `c7Tree` the walk returns only `/r/src/a.ts` —
`b.ts` inside `node_modules` is skipped — and that path decomposes over
non-excluded directories. -/
theorem claim_C7_witness :
    ∃ comps fname, ("/r/src/a.ts").toList = (comps ++ [fname]).foldl pathJoin c7Root
      ∧ ∀ c ∈ comps, isExcluded c = false :=
  claim_C7 c7Root c7Pat c7Tree c7Files (by decide) (("/r/src/a.ts").toList) (by decide)

end CodeNexus
